import Mathlib

/-!
# Owner / user calling controllers (owner-app.js, user-app.js)

A shallow embedding of the two front-end controllers.  The PeerJS objects
(`Peer`, `DataConnection`, `MediaConnection`) belong to an external library;
they are modelled as handles with an object identity, and every method the
controllers invoke on them (`send`, `answer`, `close`) is recorded as an
`Effect`, in program order.  Each callback the controllers register is a
function from the controller state to a new state and the list of effects it
performs.  The page updates made through the helper methods are recorded as
effects; the DOM properties that the stated properties mention are fields of
the state.  Callbacks that only log, set a timer or update a part of the page
that is no field of the state (on the owner side the broker `open`, `error`
and `disconnected` callbacks, wake lock, visibility, the audio element) are
left out.  Callbacks that the library may invoke synchronously from inside
one of its methods are separate events.
-/

namespace Calling

/-- Peer identities are the strings handed out by the signaling broker. -/
abbrev PeerId := String

/-! ## JavaScript `Map`, keyed by peer id, in insertion order -/

/-- `Map.prototype.get`: the value stored under `k`, if any. -/
def mapGet {V : Type} (m : List (PeerId × V)) (k : PeerId) : Option V :=
  match m with
  | [] => none
  | e :: rest => if e.1 = k then some e.2 else mapGet rest k

/-- `Map.prototype.set`: replaces the value of an existing key in place,
appends a new key at the end. -/
def mapSet {V : Type} (m : List (PeerId × V)) (k : PeerId) (v : V) : List (PeerId × V) :=
  match m with
  | [] => [(k, v)]
  | e :: rest => if e.1 = k then (k, v) :: rest else e :: mapSet rest k v

/-- `Map.prototype.delete`: removes the entry stored under `k`. -/
def mapDelete {V : Type} (m : List (PeerId × V)) (k : PeerId) : List (PeerId × V) :=
  m.filter (fun e => decide (e.1 ≠ k))

/-- `Map.prototype.has`. -/
def mapHas {V : Type} (m : List (PeerId × V)) (k : PeerId) : Bool :=
  (mapGet m k).isSome

/-- `Map.prototype.size`. -/
def mapSize {V : Type} (m : List (PeerId × V)) : Nat := m.length

/-- The keys of a map, in insertion order. -/
def mapKeys {V : Type} (m : List (PeerId × V)) : List PeerId := m.map Prod.fst

/-- `map.get(k)` where `k` may be `null` or `undefined`: no string key equals
either, so the lookup yields `undefined`. -/
def mapGetOpt {V : Type} (m : List (PeerId × V)) (k : Option PeerId) : Option V :=
  match k with
  | none => none
  | some p => mapGet m p

/-- JavaScript truthiness of a value that is `null`, `undefined` or a string:
only a non-empty string is truthy. -/
def truthy (v : Option String) : Bool :=
  match v with
  | none => false
  | some s => decide (s ≠ "")

/-! ## Library handles and messages -/

/-- The application messages exchanged over a data connection: a JSON object
with a `type` and, depending on the type, a `status`, `userId` or
`timestamp` property. -/
structure Message where
  type : String
  status : Option String
  userId : Option String
  timestamp : Option Nat
deriving DecidableEq, Repr

/-- A PeerJS `DataConnection`: `id` is the identity of the object, `peer` the
remote peer id, `isOpen` the value of its `open` property. -/
structure DataConnection where
  id : Nat
  peer : PeerId
  isOpen : Bool
deriving DecidableEq, Repr

/-- A PeerJS `MediaConnection` (a call): `id` is the identity of the object,
`peer` the remote peer id. -/
structure MediaConnection where
  id : Nat
  peer : PeerId
deriving DecidableEq, Repr

/-- What a callback does to the outside world, in program order. -/
inductive Effect where
  /-- `conn.send(data)` -/
  | send (conn : DataConnection) (data : Message)
  /-- `call.answer(localStream)` -/
  | answer (call : MediaConnection)
  /-- `call.close()` -/
  | closeCall (call : MediaConnection)
  /-- `showNotification(message, type)` (owner toast) -/
  | showNotification (message : String) (type : String)
  /-- `showCallNotification(callerId)` -/
  | showCallNotification (callerId : PeerId)
  /-- `hideCallNotification()` -/
  | hideCallNotification
  /-- `showCallControls()` -/
  | showCallControls
  /-- `hideCallControls()` -/
  | hideCallControls
  /-- `updateStatus(status)` (owner status indicator) -/
  | updateStatus (status : String)
  /-- `updateCallStatus(message)` (user) -/
  | updateCallStatus (message : String)
  /-- `showMessage(message, type)` (user) -/
  | showMessage (message : String) (type : String)
  /-- an exception that leaves the callback (a rejected promise for an
  `async` method) -/
  | uncaught (what : String)
deriving DecidableEq, Repr

/-- `{ type: 'owner-status', status }` -/
def msgOwnerStatus (status : String) : Message :=
  { type := "owner-status", status := some status, userId := none, timestamp := none }

/-- `{ type: 'owner-busy' }` -/
def msgOwnerBusy : Message :=
  { type := "owner-busy", status := none, userId := none, timestamp := none }

/-- `{ type: 'call-accepted' }` -/
def msgCallAccepted : Message :=
  { type := "call-accepted", status := none, userId := none, timestamp := none }

/-- `{ type: 'call-rejected' }` -/
def msgCallRejected : Message :=
  { type := "call-rejected", status := none, userId := none, timestamp := none }

/-- `{ type: 'call-started' }` -/
def msgCallStarted : Message :=
  { type := "call-started", status := none, userId := none, timestamp := none }

/-- `{ type: 'call-ended' }` -/
def msgCallEnded : Message :=
  { type := "call-ended", status := none, userId := none, timestamp := none }

/-- `{ type: 'user-connected', userId }` -/
def msgUserConnected (userId : String) : Message :=
  { type := "user-connected", status := none, userId := some userId, timestamp := none }

/-- `{ type: 'ping', timestamp }` -/
def msgPing (timestamp : Nat) : Message :=
  { type := "ping", status := none, userId := none, timestamp := some timestamp }

/-! ## Owner controller (`OwnerCallSystem`, owner-app.js) -/

/-- JavaScript `s.substr(start, length)` for non-negative arguments. -/
def substr (s : String) (start length : Nat) : String :=
  String.mk ((s.data.drop start).take length)

/-- The owner id computed by `init`: `random36` is the text of
`Math.random().toString(36)`, from which `substr(2, 6)` keeps up to six
characters after the leading `0.`. -/
def initOwnerId (random36 : String) : String :=
  let username := "owner"
  let randomId := substr random36 2 6
  username ++ "-" ++ randomId

/-- The fields of `OwnerCallSystem`.  `currentCaller` is `undefined` until
the first call and `null` after a reset: both are `none`.  `userCount` is the
text the script last wrote to `userCountSpan` (`none` before the first
write).  `dataListeners` and `callListeners` hold the identities of the
objects on which `setupDataConnection` and `acceptCall` registered their
callbacks, once per registration. -/
structure OwnerState where
  dataConnections : List (PeerId × DataConnection)
  mediaConnections : List (PeerId × MediaConnection)
  localStream : Bool
  isInCall : Bool
  currentCaller : Option PeerId
  userCount : Option Nat
  dataListeners : List Nat
  callListeners : List Nat
deriving DecidableEq, Repr

/-- The state the constructor leaves behind. -/
def OwnerState.initial : OwnerState :=
  { dataConnections := [], mediaConnections := [], localStream := false,
    isInCall := false, currentCaller := none, userCount := none,
    dataListeners := [], callListeners := [] }

/-- A callback of the owner controller. -/
abbrev OwnerHandler := OwnerState → OwnerState × List Effect

/-- `broadcastToAllUsers(data, excludePeer = null)`: `forEach` over
`dataConnections` in insertion order, sending to every entry whose key is not
`excludePeer` and whose connection is open. -/
def broadcastToAllUsers (data : Message) (excludePeer : Option PeerId) : OwnerHandler :=
  fun s =>
    (s, s.dataConnections.foldl
          (fun sent e =>
            if some e.1 ≠ excludePeer ∧ e.2.isOpen = true then sent ++ [Effect.send e.2 data]
            else sent)
          [])

/-- `updateUserCount()`. -/
def updateUserCount : OwnerHandler :=
  fun s => ({ s with userCount := some (mapSize s.dataConnections) }, [])

/-- `endCall()`. -/
def endCall : OwnerHandler :=
  fun s =>
    let closes := s.mediaConnections.foldl (fun done e => done ++ [Effect.closeCall e.2]) []
    let s1 := { s with mediaConnections := [] }
    let s2 := { s1 with isInCall := false, currentCaller := none }
    let ui := [Effect.hideCallControls, Effect.hideCallNotification, Effect.updateStatus "online"]
    let (s3, sent) := broadcastToAllUsers (msgOwnerStatus "available") none s2
    (s3, closes ++ ui ++ sent ++ [Effect.showNotification "Call ended" "info"])

/-- The `peer.on('connection', ...)` callback. -/
def onConnection (connection : DataConnection) : OwnerHandler :=
  fun s =>
    let s1 := { s with dataConnections := mapSet s.dataConnections connection.peer connection }
    let (s2, _) := updateUserCount s1
    let s3 := { s2 with dataListeners := connection.id :: s2.dataListeners }
    (s3, [Effect.send connection (msgOwnerStatus (if s3.isInCall then "busy" else "available"))])

/-- The `peer.on('call', ...)` callback. -/
def onCall (call : MediaConnection) : OwnerHandler :=
  fun s =>
    if s.isInCall then
      let busy :=
        match mapGet s.dataConnections call.peer with
        | some userConn => [Effect.send userConn msgOwnerBusy]
        | none => []
      (s, busy ++ [Effect.closeCall call])
    else
      let s1 := { s with currentCaller := some call.peer }
      let s2 := { s1 with mediaConnections := mapSet s1.mediaConnections call.peer call }
      (s2, [Effect.showCallNotification call.peer])

/-- The `connection.on('data', ...)` callback registered by
`setupDataConnection(connection)`.  Only the `type` of the received value is
inspected. -/
def onData (connection : DataConnection) (data : Message) : OwnerHandler :=
  fun s =>
    if data.type = "call-started" then
      let s1 := { s with isInCall := true }
      let (s2, sent) := broadcastToAllUsers (msgOwnerStatus "busy") (some connection.peer) s1
      (s2, Effect.updateStatus "busy" :: sent)
    else if data.type = "call-ended" then
      endCall s
    else
      (s, [])

/-- The `connection.on('close', ...)` callback registered by
`setupDataConnection(connection)`. -/
def onClose (connection : DataConnection) : OwnerHandler :=
  fun s =>
    let s1 := { s with dataConnections := mapDelete s.dataConnections connection.peer }
    let s2 := { s1 with mediaConnections := mapDelete s1.mediaConnections connection.peer }
    let (s3, _) := updateUserCount s2
    if s3.currentCaller = some connection.peer ∧ s3.isInCall = true then
      endCall s3
    else
      (s3, [])

/-- The `call.on('stream', ...)` callback registered by `acceptCall`. -/
def onCallStream : OwnerHandler :=
  fun s =>
    let s1 := { s with isInCall := true }
    let notify :=
      match mapGetOpt s1.dataConnections s1.currentCaller with
      | some userConn => [Effect.send userConn msgCallAccepted]
      | none => []
    (s1, [Effect.showCallControls, Effect.hideCallNotification, Effect.updateStatus "busy"]
          ++ notify)

/-- The `call.on('close', ...)` callback registered by `acceptCall`. -/
def onCallClose : OwnerHandler := endCall

/-- The `call.on('error', ...)` callback registered by `acceptCall`. -/
def onCallError : OwnerHandler :=
  fun s =>
    let (s1, effs) := endCall s
    (s1, effs ++ [Effect.showNotification "Call error" "error"])

/-- `acceptCall()`.  `answerThrows` says whether `call.answer` raises.  The
`catch` block calls `this.endNotification()`, which the class does not
define, so the `TypeError` leaves the method before `showNotification`. -/
def acceptCall (answerThrows : Bool) : OwnerHandler :=
  fun s =>
    if !truthy s.currentCaller || !s.localStream then (s, [])
    else
      match mapGetOpt s.mediaConnections s.currentCaller with
      | none => (s, [])
      | some call =>
        if answerThrows then
          (s, [Effect.uncaught "TypeError: this.endNotification is not a function"])
        else
          ({ s with callListeners := call.id :: s.callListeners }, [Effect.answer call])

/-- `rejectCall()`. -/
def rejectCall : OwnerHandler :=
  fun s =>
    if truthy s.currentCaller then
      let notify :=
        match mapGetOpt s.dataConnections s.currentCaller with
        | some userConn => [Effect.send userConn msgCallRejected]
        | none => []
      let close :=
        match mapGetOpt s.mediaConnections s.currentCaller with
        | some call => [Effect.closeCall call]
        | none => []
      let s1 :=
        match s.currentCaller with
        | some p => { s with mediaConnections := mapDelete s.mediaConnections p }
        | none => s
      let s2 := { s1 with currentCaller := none }
      (s2, notify ++ close ++ [Effect.hideCallNotification])
    else
      (s, [])

/-- The keep-alive timer of `setupPWAFeatures`: `disconnected` is the value of
`this.peer.disconnected`, `now` the value of `Date.now()`. -/
def onPingTimer (disconnected : Bool) (now : Nat) : OwnerHandler :=
  fun s =>
    if !disconnected then broadcastToAllUsers (msgPing now) none s
    else (s, [])

/-- Runs a callback once per registration, threading the state. -/
def runTimes (n : Nat) (h : OwnerHandler) : OwnerHandler :=
  fun s =>
    match n with
    | 0 => (s, [])
    | k + 1 =>
      let (s1, e1) := h s
      let (s2, e2) := runTimes k h s1
      (s2, e1 ++ e2)

/-- The library flips the `open` property of a connection object: every entry
of `dataConnections` holding that object sees the new value. -/
def setOpen (connId : Nat) (value : Bool) : OwnerHandler :=
  fun s =>
    let flip : PeerId × DataConnection → PeerId × DataConnection :=
      fun e =>
        if e.2.id = connId then (e.1, { id := e.2.id, peer := e.2.peer, isOpen := value }) else e
    ({ s with dataConnections := s.dataConnections.map flip }, [])

/-- Everything that can happen to the owner controller. -/
inductive OwnerEvent where
  /-- `getUserMedia` resolved: `localStream` is set -/
  | microphoneReady
  /-- the broker announces an inbound data connection -/
  | connection (connection : DataConnection)
  /-- the broker announces an inbound call -/
  | call (call : MediaConnection)
  /-- a value arrives on a data connection -/
  | data (connection : DataConnection) (data : Message)
  /-- a data connection closes -/
  | close (connection : DataConnection)
  /-- the library changes the `open` property of a data connection -/
  | openChanged (connId : Nat) (value : Bool)
  /-- click on the accept button -/
  | acceptCall (answerThrows : Bool)
  /-- click on the reject button -/
  | rejectCall
  /-- click on the end-call button -/
  | endCall
  /-- the remote stream of a call arrives -/
  | callStream (call : MediaConnection)
  /-- a call closes -/
  | callClose (call : MediaConnection)
  /-- a call fails -/
  | callError (call : MediaConnection)
  /-- the 30-second keep-alive timer fires -/
  | pingTimer (disconnected : Bool) (now : Nat)
deriving DecidableEq, Repr

/-- One turn of the event loop: the callbacks registered for the event run,
one after the other.  An event on an object without registered callbacks does
nothing. -/
def ownerStep (s : OwnerState) (ev : OwnerEvent) : OwnerState × List Effect :=
  match ev with
  | .microphoneReady => ({ s with localStream := true }, [])
  | .connection c => onConnection c s
  | .call c => onCall c s
  | .data c d => runTimes (s.dataListeners.count c.id) (onData c d) s
  | .close c => runTimes (s.dataListeners.count c.id) (onClose c) s
  | .openChanged i v => setOpen i v s
  | .acceptCall t => acceptCall t s
  | .rejectCall => rejectCall s
  | .endCall => endCall s
  | .callStream c => runTimes (s.callListeners.count c.id) onCallStream s
  | .callClose c => runTimes (s.callListeners.count c.id) onCallClose s
  | .callError c => runTimes (s.callListeners.count c.id) onCallError s
  | .pingTimer d n => onPingTimer d n s

/-- The state after a sequence of events. -/
def ownerRun (s : OwnerState) (evs : List OwnerEvent) : OwnerState :=
  evs.foldl (fun st ev => (ownerStep st ev).1) s

/-- The states the owner controller can be in. -/
def OwnerReachable (s : OwnerState) : Prop :=
  ∃ evs : List OwnerEvent, ownerRun OwnerState.initial evs = s

/-! ## User controller (`CallSystem`, user-app.js) -/

/-- The fields of `CallSystem` and the DOM properties it writes and the
stated properties mention.  `peerId` is `this.peer.id`; `conn` holds the
connection object together with the current value of its `open` property;
`callBtnDisabled`, `callBtnText` and `statusText` are `callBtn.disabled`,
`callBtn.textContent` and `statusDiv.textContent`.  `connListeners`,
`outCallListeners` and `inCallListeners` hold the identities of the objects on
which `setupDataConnection`, `startCall` and the `peer.on('call')` callback
registered their callbacks, once per registration. -/
structure UserState where
  peerId : String
  conn : Option DataConnection
  call : Option MediaConnection
  localStream : Bool
  ownerId : Option String
  callBtnDisabled : Bool
  callBtnText : String
  statusText : String
  connListeners : List Nat
  outCallListeners : List Nat
  inCallListeners : List Nat
deriving DecidableEq, Repr

/-- The state the constructor leaves behind: `peerId` is the id `init`
registers, the three DOM properties are what the page markup gives them. -/
def UserState.initial (peerId : String) (callBtnDisabled : Bool) (callBtnText statusText : String) :
    UserState :=
  { peerId := peerId, conn := none, call := none, localStream := false, ownerId := none,
    callBtnDisabled := callBtnDisabled, callBtnText := callBtnText, statusText := statusText,
    connListeners := [], outCallListeners := [], inCallListeners := [] }

/-- A callback of the user controller. -/
abbrev UserHandler := UserState → UserState × List Effect

/-- `endCall()` of the user controller. -/
def userEndCall : UserHandler :=
  fun s =>
    let closes :=
      match s.call with
      | some c => [Effect.closeCall c]
      | none => []
    let s1 := { s with call := none }
    let s2 := { s1 with callBtnText := "📞 Call Owner", callBtnDisabled := false }
    let sent :=
      match s2.conn with
      | some c => if c.isOpen then [Effect.send c msgCallEnded] else []
      | none => []
    let s3 := { s2 with statusText := "Owner Available" }
    (s3, closes ++ sent)

/-- `setupDataConnection(connection)`: registers the four callbacks. -/
def userSetupDataConnection (connection : DataConnection) : UserHandler :=
  fun s => ({ s with connListeners := connection.id :: s.connListeners }, [])

/-- The `peer.on('connection', ...)` callback of the user controller. -/
def userOnConnection (connection : DataConnection) : UserHandler :=
  fun s => userSetupDataConnection connection { s with conn := some connection }

/-- The `peer.on('call', ...)` callback of the user controller.
`answerThrows` says whether `incomingCall.answer` raises; the `catch` block
only logs. -/
def userOnCall (incomingCall : MediaConnection) (answerThrows : Bool) : UserHandler :=
  fun s =>
    if answerThrows then (s, [])
    else
      ({ s with call := some incomingCall,
                inCallListeners := incomingCall.id :: s.inCallListeners },
       [Effect.answer incomingCall])

/-- `connectToOwner()`.  `input` is `ownerIdInput.value.trim()` and `newConn`
what `peer.connect` returns (`undefined`, here `none`, when the peer is
disconnected from the broker; registering callbacks on it then raises). -/
def connectToOwner (input : String) (newConn : Option DataConnection) : UserHandler :=
  fun s =>
    if input = "" then (s, [Effect.showMessage "Please enter Owner ID" "error"])
    else
      let s1 := { s with ownerId := some input }
      let s2 := { s1 with conn := newConn }
      match newConn with
      | none => (s2, [Effect.uncaught "TypeError: connection is undefined"])
      | some c =>
        let (s3, _) := userSetupDataConnection c s2
        (s3, [Effect.showMessage "Connecting to owner..." "info"])

/-- `reconnectToOwner()`, run by the timer the `peer.on('error')` callback
sets. -/
def reconnectToOwner (input : String) (newConn : Option DataConnection) : UserHandler :=
  fun s =>
    if truthy s.ownerId then
      let (s1, effs) := connectToOwner input newConn s
      (s1, Effect.showMessage "Reconnecting to owner..." "info" :: effs)
    else (s, [])

/-- `startCall()`.  `newCall` is what `peer.call` returns; `none` stands for
`undefined` (the peer is disconnected from the broker): `this.call.on` then
raises and the `catch` block runs. -/
def startCall (newCall : Option MediaConnection) : UserHandler :=
  fun s =>
    if !truthy s.ownerId || !s.localStream then
      (s, [Effect.showMessage "Not ready to call" "error"])
    else
      match newCall with
      | some c =>
        let s1 := { s with call := some c }
        let s2 := { s1 with callBtnDisabled := true }
        let s3 := { s2 with outCallListeners := c.id :: s2.outCallListeners }
        (s3, [Effect.updateCallStatus "Calling owner..."])
      | none =>
        let s1 := { s with call := none }
        let s2 := { s1 with callBtnDisabled := true }
        let (s3, effs) := userEndCall s2
        (s3, Effect.updateCallStatus "Calling owner..."
              :: Effect.updateCallStatus "Error starting call" :: effs)

/-- The click callback of the call button. -/
def onCallBtnClick (newCall : Option MediaConnection) : UserHandler :=
  fun s =>
    match s.call with
    | some _ => userEndCall s
    | none => startCall newCall s

/-- The `connection.on('open', ...)` callback. -/
def userOnOpen (connection : DataConnection) : UserHandler :=
  fun s =>
    (s, [Effect.showMessage "Connected to owner!" "success",
         Effect.send connection (msgUserConnected s.peerId)])

/-- The `connection.on('data', ...)` callback of the user controller.  Only
the `type` and the `status` of the received value are inspected. -/
def userOnData (data : Message) : UserHandler :=
  fun s =>
    if data.type = "owner-status" then
      if data.status = some "available" then
        ({ s with statusText := "Owner Available", callBtnDisabled := false }, [])
      else if data.status = some "busy" then
        ({ s with statusText := "Owner Busy", callBtnDisabled := true }, [])
      else (s, [])
    else if data.type = "call-rejected" then
      let (s1, effs) := userEndCall s
      (s1, Effect.updateCallStatus "Call rejected by owner" :: effs)
    else if data.type = "call-ended" then
      let (s1, effs) := userEndCall s
      (s1, Effect.updateCallStatus "Call ended by owner" :: effs)
    else (s, [])

/-- The `connection.on('close', ...)` callback of the user controller. -/
def userOnClose : UserHandler :=
  fun s =>
    ({ s with statusText := "Owner Offline", callBtnDisabled := true },
     [Effect.showMessage "Disconnected from owner" "error"])

/-- The `call.on('stream', ...)` callback registered by `startCall`. -/
def userOnOutStream : UserHandler :=
  fun s =>
    let s1 := { s with callBtnDisabled := false, callBtnText := "📞 End Call",
                       statusText := "In Call" }
    let sent :=
      match s1.conn with
      | some c => [Effect.send c msgCallStarted]
      | none => []
    (s1, Effect.updateCallStatus "Call connected!" :: sent)

/-- The `call.on('stream', ...)` callback registered by the `peer.on('call')`
callback. -/
def userOnInStream : UserHandler :=
  fun s =>
    ({ s with callBtnText := "📞 End Call", statusText := "In Call" },
     [Effect.updateCallStatus "Call connected!"])

/-- The `call.on('close', ...)` and `call.on('error', ...)` callbacks: both
run `endCall()` and then `updateCallStatus(message)`. -/
def userOnCallOver (message : String) : UserHandler :=
  fun s =>
    let (s1, effs) := userEndCall s
    (s1, effs ++ [Effect.updateCallStatus message])

/-- Runs a callback of the user controller once per registration. -/
def userRunTimes (n : Nat) (h : UserHandler) : UserHandler :=
  fun s =>
    match n with
    | 0 => (s, [])
    | k + 1 =>
      let (s1, e1) := h s
      let (s2, e2) := userRunTimes k h s1
      (s2, e1 ++ e2)

/-- The library sets the `open` property of a connection object; `this.conn`
sees the new value when it is that object. -/
def userSetOpen (connId : Nat) (value : Bool) : UserHandler :=
  fun s =>
    match s.conn with
    | some c =>
      if c.id = connId then
        ({ s with conn := some { id := c.id, peer := c.peer, isOpen := value } }, [])
      else (s, [])
    | none => (s, [])

/-- Everything that can happen to the user controller. -/
inductive UserEvent where
  /-- `getUserMedia` resolved: `localStream` is set -/
  | microphoneReady
  /-- the broker announces an inbound data connection -/
  | connection (connection : DataConnection)
  /-- the broker announces an inbound call -/
  | call (incomingCall : MediaConnection) (answerThrows : Bool)
  /-- click on the connect button, or Enter in the owner id field -/
  | connectClick (input : String) (newConn : Option DataConnection)
  /-- the reconnect timer set after a broker error fires -/
  | reconnectTimer (input : String) (newConn : Option DataConnection)
  /-- click on the call button -/
  | callBtnClick (newCall : Option MediaConnection)
  /-- a data connection opens -/
  | connOpen (connection : DataConnection)
  /-- a value arrives on a data connection -/
  | data (connection : DataConnection) (data : Message)
  /-- a data connection closes -/
  | connClose (connection : DataConnection)
  /-- the remote stream of a call arrives -/
  | callStream (call : MediaConnection)
  /-- a call closes -/
  | callClose (call : MediaConnection)
  /-- a call fails -/
  | callError (call : MediaConnection)
  /-- the broker connection is lost -/
  | peerDisconnected
deriving DecidableEq, Repr

/-- One turn of the event loop of the user controller: the library updates
the `open` property first, then the callbacks registered for the event run. -/
def userStep (s : UserState) (ev : UserEvent) : UserState × List Effect :=
  match ev with
  | .microphoneReady => ({ s with localStream := true }, [])
  | .connection c => userOnConnection c s
  | .call c t => userOnCall c t s
  | .connectClick i n => connectToOwner i n s
  | .reconnectTimer i n => reconnectToOwner i n s
  | .callBtnClick n => onCallBtnClick n s
  | .connOpen c =>
    let (s1, _) := userSetOpen c.id true s
    userRunTimes (s1.connListeners.count c.id) (userOnOpen c) s1
  | .data c d => userRunTimes (s.connListeners.count c.id) (userOnData d) s
  | .connClose c =>
    let (s1, _) := userSetOpen c.id false s
    userRunTimes (s1.connListeners.count c.id) userOnClose s1
  | .callStream c =>
    let (s1, e1) := userRunTimes (s.outCallListeners.count c.id) userOnOutStream s
    let (s2, e2) := userRunTimes (s1.inCallListeners.count c.id) userOnInStream s1
    (s2, e1 ++ e2)
  | .callClose c =>
    userRunTimes (s.outCallListeners.count c.id + s.inCallListeners.count c.id)
      (userOnCallOver "Call ended") s
  | .callError c =>
    let (s1, e1) := userRunTimes (s.outCallListeners.count c.id) (userOnCallOver "Call failed") s
    let (s2, e2) :=
      userRunTimes (s1.inCallListeners.count c.id) (userOnCallOver "Call error occurred") s1
    (s2, e1 ++ e2)
  | .peerDisconnected => ({ s with statusText := "Disconnected" }, [])

/-- The state of the user controller after a sequence of events. -/
def userRun (s : UserState) (evs : List UserEvent) : UserState :=
  evs.foldl (fun st ev => (userStep st ev).1) s

/-! ## The message vocabulary -/

/-- The message types of the vocabulary. -/
def messageTypes : List String :=
  ["owner-status", "call-started", "call-ended", "call-accepted", "call-rejected",
   "owner-busy", "user-connected", "ping"]

/-- The messages `sent` by `conn.send` calls among a list of effects. -/
def sentMessages (effs : List Effect) : List Message :=
  effs.filterMap (fun e => match e with
    | Effect.send _ data => some data
    | _ => none)

/-- The connections on which `data` is sent among a list of effects, one
entry per `send` call. -/
def sentTo (data : Message) (effs : List Effect) : List DataConnection :=
  effs.filterMap (fun e => match e with
    | Effect.send conn d => if d = data then some conn else none
    | _ => none)

/-- The calls closed by `call.close()` among a list of effects. -/
def closedCalls (effs : List Effect) : List MediaConnection :=
  effs.filterMap (fun e => match e with
    | Effect.closeCall call => some call
    | _ => none)

/-- The message is one of the vocabulary: its type is listed, an
`owner-status` carries the status `available` or `busy`, a `user-connected`
carries a `userId` and a `ping` a `timestamp`. -/
def inVocabulary (m : Message) : Prop :=
  m.type ∈ messageTypes ∧
  (m.type = "owner-status" → m.status = some "available" ∨ m.status = some "busy") ∧
  (m.type = "user-connected" → m.userId.isSome = true) ∧
  (m.type = "ping" → m.timestamp.isSome = true)


/-- Every `send` among the effects carries a message satisfying `P`. -/
def SendsOnly (P : Message → Prop) (effs : List Effect) : Prop :=
  ∀ conn m, Effect.send conn m ∈ effs → P m

/-- What the vocabulary asks of a message sent by the user whose peer id is
`peerId`: it is in the vocabulary, and a `user-connected` message carries that
peer id as `userId`. -/
def UserMessageOk (peerId : String) (m : Message) : Prop :=
  inVocabulary m ∧ (m.type = "user-connected" → m.userId = some peerId)

/-! ## Runs and concrete states used by the statements -/

/-- Every inbound call of the run arrives while the owner is in a call
(`isInCall`) or while `mediaConnections` is empty. -/
def callsArriveSingly (s : OwnerState) : List OwnerEvent → Bool
  | [] => true
  | ev :: rest =>
    (match ev with
      | OwnerEvent.call _ => s.isInCall || s.mediaConnections.isEmpty
      | _ => true)
    && callsArriveSingly (ownerStep s ev).1 rest

/-- The owner after an inbound call from `alice` that is neither accepted nor
rejected yet. -/
def pendingAlice : OwnerState :=
  ownerRun OwnerState.initial [OwnerEvent.call { id := 1, peer := "alice" }]

/-- The data connections that were opened during a run of the owner
controller and have not closed yet, in the order they were opened. -/
def liveConnections (evs : List OwnerEvent) : List DataConnection :=
  evs.foldl
    (fun live ev =>
      match ev with
      | OwnerEvent.connection c => live ++ [c]
      | OwnerEvent.close c => live.filter (fun d => decide (d.id ≠ c.id))
      | _ => live)
    []

/-- The peer `bob` connects, connects a second time (as `reconnectToOwner`
does), and then the first, stale connection closes. -/
def staleCloseRun : List OwnerEvent :=
  [OwnerEvent.connection { id := 1, peer := "bob", isOpen := true },
   OwnerEvent.connection { id := 2, peer := "bob", isOpen := true },
   OwnerEvent.close { id := 1, peer := "bob", isOpen := false }]

/-- The shape `dataConnections` has in the owner controller: a map (its keys
are pairwise distinct) that stores each connection under the peer id of the
connection. -/
def KeyedByPeer (dc : List (PeerId × DataConnection)) : Prop :=
  (mapKeys dc).Nodup ∧ ∀ e ∈ dc, e.2.peer = e.1

/-- The owner with a microphone, `alice` connected, and a call from `alice`
offered and not yet answered. -/
def offeredByAlice : OwnerState :=
  ownerRun OwnerState.initial
    [OwnerEvent.microphoneReady,
     OwnerEvent.connection { id := 1, peer := "alice", isOpen := true },
     OwnerEvent.call { id := 1, peer := "alice" }]

/-- The owner in a call with `alice` (offered, accepted, stream arrived) while
`bob` is connected as well. -/
def inCallWithAlice : OwnerState :=
  ownerRun OwnerState.initial
    [OwnerEvent.microphoneReady,
     OwnerEvent.connection { id := 1, peer := "alice", isOpen := true },
     OwnerEvent.connection { id := 2, peer := "bob", isOpen := true },
     OwnerEvent.call { id := 1, peer := "alice" },
     OwnerEvent.acceptCall false,
     OwnerEvent.callStream { id := 1, peer := "alice" }]

/-- `currentCaller` is non-null and `mediaConnections` holds a call for it. -/
def hasCurrentCall (s : OwnerState) : Bool :=
  (mapGetOpt s.mediaConnections s.currentCaller).isSome

/-- `isInCall` implies that `currentCaller` is non-null and that
`mediaConnections` holds a call for it. -/
def busyHasCall (s : OwnerState) : Bool :=
  !s.isInCall || hasCurrentCall s

/-- Every `call-started` message and every stream callback of the run arrives
while `currentCaller` has a stored call, and the reject button is not used
while `isInCall` is true. -/
def busySignalsWithCall (s : OwnerState) : List OwnerEvent → Bool
  | [] => true
  | ev :: rest =>
    (match ev with
      | OwnerEvent.data _ d => decide (d.type ≠ "call-started") || hasCurrentCall s
      | OwnerEvent.callStream _ => hasCurrentCall s
      | OwnerEvent.rejectCall => !s.isInCall
      | _ => true)
    && busySignalsWithCall (ownerStep s ev).1 rest

/-- The status carried by the most recent `owner-status` message of a run of
the user controller, if there is one. -/
def lastOwnerStatus (evs : List UserEvent) : Option String :=
  evs.foldl
    (fun last ev =>
      match ev with
      | UserEvent.data _ d => if d.type = "owner-status" then d.status else last
      | _ => last)
    none

/-- The events that neither carry a new owner status nor run `endCall()` or a
stream callback of the user controller: everything except an `owner-status`,
`call-rejected` or `call-ended` message, a call stream, close or error event
and a click on the call button. -/
def quietEvent : UserEvent → Bool
  | UserEvent.data _ d =>
    decide (d.type ≠ "owner-status" ∧ d.type ≠ "call-rejected" ∧ d.type ≠ "call-ended")
  | UserEvent.callBtnClick _ => false
  | UserEvent.callStream _ => false
  | UserEvent.callClose _ => false
  | UserEvent.callError _ => false
  | _ => true

/-- A user connects to the owner `owner-i`, is told that the owner is busy,
and then receives `call-rejected`. -/
def busyThenRejectedRun : List UserEvent :=
  [UserEvent.connectClick "owner-i" (some { id := 1, peer := "owner-i", isOpen := false }),
   UserEvent.connOpen { id := 1, peer := "owner-i", isOpen := true },
   UserEvent.data { id := 1, peer := "owner-i", isOpen := true } (msgOwnerStatus "busy"),
   UserEvent.data { id := 1, peer := "owner-i", isOpen := true } msgCallRejected]

/-- A user connects to the owner `owner-i`, is told that the owner is busy,
and then loses the data connection. -/
def busyThenClosedRun : List UserEvent :=
  [UserEvent.connectClick "owner-i" (some { id := 1, peer := "owner-i", isOpen := false }),
   UserEvent.connOpen { id := 1, peer := "owner-i", isOpen := true },
   UserEvent.data { id := 1, peer := "owner-i", isOpen := true } (msgOwnerStatus "busy"),
   UserEvent.microphoneReady,
   UserEvent.connClose { id := 1, peer := "owner-i", isOpen := false }]

/-! ## Lemmas about the map operations -/

theorem mapGet_mapSet_self {V : Type} (m : List (PeerId × V)) (k : PeerId) (v : V) :
    mapGet (mapSet m k v) k = some v := by
  induction m with
  | nil => simp [mapSet, mapGet]
  | cons e rest ih =>
    by_cases h : e.1 = k
    · simp [mapSet, mapGet, h]
    · simp [mapSet, mapGet, h, ih]

theorem mapKeys_mapSet_mem {V : Type} (m : List (PeerId × V)) (k : PeerId) (v : V) (x : PeerId) :
    x ∈ mapKeys (mapSet m k v) ↔ x = k ∨ x ∈ mapKeys m := by
  induction m with
  | nil => simp [mapSet, mapKeys]
  | cons e rest ih =>
    by_cases h : e.1 = k
    · simp only [mapSet, h, if_true, mapKeys, List.map_cons, List.mem_cons]
      constructor
      · rintro (hx | hx)
        · exact Or.inl hx
        · exact Or.inr (Or.inr hx)
      · rintro (hx | hx | hx)
        · exact Or.inl hx
        · exact Or.inl hx
        · exact Or.inr hx
    · simp only [mapSet, h, if_false, mapKeys, List.map_cons, List.mem_cons]
      simp only [mapKeys] at ih
      rw [ih]
      constructor
      · rintro (hx | hx | hx)
        · exact Or.inr (Or.inl hx)
        · exact Or.inl hx
        · exact Or.inr (Or.inr hx)
      · rintro (hx | hx | hx)
        · exact Or.inr (Or.inl hx)
        · exact Or.inl hx
        · exact Or.inr (Or.inr hx)

theorem mapKeys_mapSet_nodup {V : Type} (m : List (PeerId × V)) (k : PeerId) (v : V)
    (hm : (mapKeys m).Nodup) : (mapKeys (mapSet m k v)).Nodup := by
  induction m with
  | nil => simp [mapSet, mapKeys]
  | cons e rest ih =>
    have hm2 : e.1 ∉ mapKeys rest ∧ (mapKeys rest).Nodup := by
      simpa [mapKeys] using hm
    by_cases h : e.1 = k
    · simp only [mapSet, h, if_true]
      have : mapKeys ((k, v) :: rest) = k :: mapKeys rest := by simp [mapKeys]
      rw [this, List.nodup_cons]
      exact ⟨h ▸ hm2.1, hm2.2⟩
    · simp only [mapSet, h, if_false]
      have : mapKeys (e :: mapSet rest k v) = e.1 :: mapKeys (mapSet rest k v) := by
        simp [mapKeys]
      rw [this, List.nodup_cons]
      refine ⟨?_, ih hm2.2⟩
      rw [mapKeys_mapSet_mem]
      rintro (hx | hx)
      · exact h hx
      · exact hm2.1 hx

theorem mapKeys_mapDelete_nodup {V : Type} (m : List (PeerId × V)) (k : PeerId)
    (hm : (mapKeys m).Nodup) : (mapKeys (mapDelete m k)).Nodup := by
  unfold mapKeys mapDelete
  exact (List.Nodup.sublist ((List.filter_sublist m).map Prod.fst) hm)

theorem mapSize_mapDelete_le {V : Type} (m : List (PeerId × V)) (k : PeerId) :
    mapSize (mapDelete m k) ≤ mapSize m := by
  unfold mapSize mapDelete
  exact List.length_filter_le _ _

theorem mapSize_mapSet_le {V : Type} (m : List (PeerId × V)) (k : PeerId) (v : V) :
    mapSize (mapSet m k v) ≤ mapSize m + 1 := by
  induction m with
  | nil => simp [mapSet, mapSize]
  | cons e rest ih =>
    by_cases h : e.1 = k
    · simp [mapSet, mapSize, h]
    · simp only [mapSet, h, if_false, mapSize, List.length_cons] at ih ⊢
      omega

theorem filterMap_some_eq_map {α β : Type} (f : α → β) (l : List α) :
    l.filterMap (fun x => some (f x)) = l.map f := by
  induction l with
  | nil => rfl
  | cons a rest ih => simp [List.filterMap_cons, ih]

theorem filterMap_none_eq_nil {α β : Type} (l : List α) :
    l.filterMap (fun _ => (none : Option β)) = [] := by
  induction l with
  | nil => rfl
  | cons a rest ih => simp [List.filterMap_cons, ih]

/-! ## Lemmas about the owner callbacks -/

theorem runTimes_preserves (P : OwnerState → Prop) (h : OwnerHandler)
    (hP : ∀ s, P s → P (h s).1) (n : Nat) (s : OwnerState) (hs : P s) :
    P (runTimes n h s).1 := by
  induction n generalizing s with
  | zero => simpa [runTimes] using hs
  | succ k ih =>
    simp only [runTimes]
    exact ih (h s).1 (hP s hs)

theorem runTimes_effects (Q : Effect → Prop) (h : OwnerHandler)
    (hQ : ∀ s, ∀ e ∈ (h s).2, Q e) (n : Nat) (s : OwnerState) :
    ∀ e ∈ (runTimes n h s).2, Q e := by
  induction n generalizing s with
  | zero => simp [runTimes]
  | succ k ih =>
    intro e he
    simp only [runTimes, List.mem_append] at he
    rcases he with he | he
    · exact hQ s e he
    · exact ih (h s).1 e he

theorem broadcast_fold (data : Message) (excludePeer : Option PeerId)
    (l : List (PeerId × DataConnection)) (acc : List Effect) :
    l.foldl
        (fun sent e =>
          if some e.1 ≠ excludePeer ∧ e.2.isOpen = true then sent ++ [Effect.send e.2 data]
          else sent)
        acc
      = acc ++ (l.filter (fun e => decide (some e.1 ≠ excludePeer ∧ e.2.isOpen = true))).map
                (fun e => Effect.send e.2 data) := by
  induction l generalizing acc with
  | nil => simp
  | cons e rest ih =>
    by_cases h : some e.1 ≠ excludePeer ∧ e.2.isOpen = true
    · simp only [List.foldl_cons, h, and_self, if_true, ih]
      simp [List.filter_cons, h]
    · simp only [List.foldl_cons, h, if_false, ih]
      simp [List.filter_cons, h]

theorem broadcastToAllUsers_state (data : Message) (excludePeer : Option PeerId)
    (s : OwnerState) : (broadcastToAllUsers data excludePeer s).1 = s := rfl

theorem broadcastToAllUsers_effects (data : Message) (excludePeer : Option PeerId)
    (s : OwnerState) :
    (broadcastToAllUsers data excludePeer s).2
      = (s.dataConnections.filter
            (fun e => decide (some e.1 ≠ excludePeer ∧ e.2.isOpen = true))).map
          (fun e => Effect.send e.2 data) := by
  simp only [broadcastToAllUsers]
  rw [broadcast_fold]
  simp

theorem closes_fold (l : List (PeerId × MediaConnection)) (acc : List Effect) :
    l.foldl (fun done e => done ++ [Effect.closeCall e.2]) acc
      = acc ++ l.map (fun e => Effect.closeCall e.2) := by
  induction l generalizing acc with
  | nil => simp
  | cons e rest ih => simp [List.foldl_cons, ih]

theorem endCall_state (s : OwnerState) :
    (endCall s).1 = { s with mediaConnections := [], isInCall := false, currentCaller := none } :=
  rfl

theorem endCall_effects (s : OwnerState) :
    (endCall s).2
      = s.mediaConnections.map (fun e => Effect.closeCall e.2)
        ++ [Effect.hideCallControls, Effect.hideCallNotification, Effect.updateStatus "online"]
        ++ (s.dataConnections.filter (fun e => e.2.isOpen)).map
            (fun e => Effect.send e.2 (msgOwnerStatus "available"))
        ++ [Effect.showNotification "Call ended" "info"] := by
  simp only [endCall, broadcastToAllUsers]
  rw [closes_fold, broadcast_fold]
  simp


theorem onConnection_media (c : DataConnection) (s : OwnerState) :
    (onConnection c s).1.mediaConnections = s.mediaConnections := rfl

theorem onData_media_le (c : DataConnection) (d : Message) (s : OwnerState) :
    mapSize (onData c d s).1.mediaConnections ≤ mapSize s.mediaConnections := by
  unfold onData
  split
  · simp [broadcastToAllUsers]
  · split
    · simp [endCall_state, mapSize]
    · simp

theorem onClose_media_le (c : DataConnection) (s : OwnerState) :
    mapSize (onClose c s).1.mediaConnections ≤ mapSize s.mediaConnections := by
  unfold onClose
  simp only [updateUserCount]
  split
  · simp [endCall_state, mapSize]
  · exact mapSize_mapDelete_le _ _

theorem acceptCall_media (t : Bool) (s : OwnerState) :
    (acceptCall t s).1.mediaConnections = s.mediaConnections := by
  unfold acceptCall
  split
  · rfl
  · split
    · rfl
    · split <;> rfl

theorem rejectCall_media_le (s : OwnerState) :
    mapSize (rejectCall s).1.mediaConnections ≤ mapSize s.mediaConnections := by
  unfold rejectCall
  split
  · cases hc : s.currentCaller with
    | none => simp
    | some p => simpa using mapSize_mapDelete_le _ _
  · simp

theorem setOpen_media (i : Nat) (v : Bool) (s : OwnerState) :
    (setOpen i v s).1.mediaConnections = s.mediaConnections := rfl

theorem onPingTimer_state (d : Bool) (n : Nat) (s : OwnerState) :
    (onPingTimer d n s).1 = s := by
  unfold onPingTimer
  split <;> rfl

theorem onCallError_state (s : OwnerState) : (onCallError s).1 = (endCall s).1 := rfl

/-- No callback other than the inbound-call callback adds a call to
`mediaConnections`, and the inbound-call callback adds none while `isInCall`
holds. -/
theorem ownerStep_media_le (s : OwnerState) (ev : OwnerEvent)
    (h : s.isInCall = true ∨ ∀ c, ev ≠ OwnerEvent.call c) :
    mapSize (ownerStep s ev).1.mediaConnections ≤ mapSize s.mediaConnections := by
  have hrun : ∀ (n : Nat) (g : OwnerHandler),
      (∀ t, mapSize (g t).1.mediaConnections ≤ mapSize t.mediaConnections) →
      mapSize (runTimes n g s).1.mediaConnections ≤ mapSize s.mediaConnections := by
    intro n g hg
    exact runTimes_preserves
      (fun t => mapSize t.mediaConnections ≤ mapSize s.mediaConnections) g
      (fun t ht => le_trans (hg t) ht) n s (le_refl _)
  cases ev with
  | microphoneReady => simp [ownerStep]
  | connection c => simp [ownerStep, onConnection_media]
  | call c =>
    rcases h with h | h
    · simp [ownerStep, onCall, h]
    · exact absurd rfl (h c)
  | data c d => exact hrun _ _ (onData_media_le c d)
  | close c => exact hrun _ _ (onClose_media_le c)
  | openChanged i v => simp [ownerStep, setOpen_media]
  | acceptCall t => simp [ownerStep, acceptCall_media]
  | rejectCall => exact rejectCall_media_le s
  | endCall => simp [ownerStep, endCall_state, mapSize]
  | callStream c => exact hrun _ _ (fun t => by simp [onCallStream])
  | callClose c => exact hrun _ _ (fun t => by simp [onCallClose, endCall_state, mapSize])
  | callError c => exact hrun _ _ (fun t => by simp [onCallError_state, endCall_state, mapSize])
  | pingTimer d n => simp [ownerStep, onPingTimer_state]


theorem onData_media_nodup (c : DataConnection) (d : Message) (s : OwnerState)
    (hs : (mapKeys s.mediaConnections).Nodup) :
    (mapKeys (onData c d s).1.mediaConnections).Nodup := by
  unfold onData
  split
  · simpa [broadcastToAllUsers] using hs
  · split
    · simp [endCall_state, mapKeys]
    · simpa using hs

theorem onClose_media_nodup (c : DataConnection) (s : OwnerState)
    (hs : (mapKeys s.mediaConnections).Nodup) :
    (mapKeys (onClose c s).1.mediaConnections).Nodup := by
  unfold onClose
  simp only [updateUserCount]
  split
  · simp [endCall_state, mapKeys]
  · exact mapKeys_mapDelete_nodup _ _ hs

theorem rejectCall_media_nodup (s : OwnerState)
    (hs : (mapKeys s.mediaConnections).Nodup) :
    (mapKeys (rejectCall s).1.mediaConnections).Nodup := by
  unfold rejectCall
  split
  · cases hc : s.currentCaller with
    | none => simpa using hs
    | some p => simpa using mapKeys_mapDelete_nodup _ p hs
  · simpa using hs

theorem onCall_media_nodup (c : MediaConnection) (s : OwnerState)
    (hs : (mapKeys s.mediaConnections).Nodup) :
    (mapKeys (onCall c s).1.mediaConnections).Nodup := by
  unfold onCall
  split
  · simpa using hs
  · simpa using mapKeys_mapSet_nodup _ c.peer c hs

/-- The keys of `mediaConnections` stay pairwise distinct: one call per peer. -/
theorem ownerStep_media_nodup (s : OwnerState) (ev : OwnerEvent)
    (hs : (mapKeys s.mediaConnections).Nodup) :
    (mapKeys (ownerStep s ev).1.mediaConnections).Nodup := by
  have hrun : ∀ (n : Nat) (g : OwnerHandler),
      (∀ t, (mapKeys t.mediaConnections).Nodup → (mapKeys (g t).1.mediaConnections).Nodup) →
      (mapKeys (runTimes n g s).1.mediaConnections).Nodup := by
    intro n g hg
    exact runTimes_preserves (fun t => (mapKeys t.mediaConnections).Nodup) g hg n s hs
  cases ev with
  | microphoneReady => simpa [ownerStep] using hs
  | connection c => simpa [ownerStep, onConnection_media] using hs
  | call c => exact onCall_media_nodup c s hs
  | data c d => exact hrun _ _ (onData_media_nodup c d)
  | close c => exact hrun _ _ (onClose_media_nodup c)
  | openChanged i v => simpa [ownerStep, setOpen_media] using hs
  | acceptCall t => simpa [ownerStep, acceptCall_media] using hs
  | rejectCall => exact rejectCall_media_nodup s hs
  | endCall => simp [ownerStep, endCall_state, mapKeys]
  | callStream c => exact hrun _ _ (fun t ht => by simpa [onCallStream] using ht)
  | callClose c => exact hrun _ _ (fun t _ => by simp [onCallClose, endCall_state, mapKeys])
  | callError c =>
    exact hrun _ _ (fun t _ => by simp [onCallError_state, endCall_state, mapKeys])
  | pingTimer d n => simpa [ownerStep, onPingTimer_state] using hs

theorem ownerRun_cons (s : OwnerState) (ev : OwnerEvent) (evs : List OwnerEvent) :
    ownerRun s (ev :: evs) = ownerRun (ownerStep s ev).1 evs := rfl

theorem ownerRun_media_nodup (evs : List OwnerEvent) (s : OwnerState)
    (hs : (mapKeys s.mediaConnections).Nodup) :
    (mapKeys (ownerRun s evs).mediaConnections).Nodup := by
  induction evs generalizing s with
  | nil => simpa [ownerRun] using hs
  | cons ev rest ih =>
    rw [ownerRun_cons]
    exact ih _ (ownerStep_media_nodup s ev hs)

theorem ownerStep_media_single (s : OwnerState) (ev : OwnerEvent)
    (hs : mapSize s.mediaConnections ≤ 1)
    (hg : (match ev with
            | OwnerEvent.call _ => s.isInCall || s.mediaConnections.isEmpty
            | _ => true) = true) :
    mapSize (ownerStep s ev).1.mediaConnections ≤ 1 := by
  by_cases hcall : ∃ c, ev = OwnerEvent.call c
  · obtain ⟨c, rfl⟩ := hcall
    by_cases hin : s.isInCall = true
    · exact le_trans (ownerStep_media_le s _ (Or.inl hin)) hs
    · have hempty : s.mediaConnections = [] := by
        simpa [hin, List.isEmpty_iff] using hg
      simp [ownerStep, onCall, hin, hempty, mapSet, mapSize]
  · have : ∀ c, ev ≠ OwnerEvent.call c := fun c hc => hcall ⟨c, hc⟩
    exact le_trans (ownerStep_media_le s ev (Or.inr this)) hs

theorem ownerRun_media_single (evs : List OwnerEvent) (s : OwnerState)
    (hs : mapSize s.mediaConnections ≤ 1) (hg : callsArriveSingly s evs = true) :
    mapSize (ownerRun s evs).mediaConnections ≤ 1 := by
  induction evs generalizing s with
  | nil => simpa [ownerRun] using hs
  | cons ev rest ih =>
    rw [ownerRun_cons]
    simp only [callsArriveSingly, Bool.and_eq_true] at hg
    exact ih _ (ownerStep_media_single s ev hs hg.1) hg.2

theorem mem_mapSet {V : Type} (m : List (PeerId × V)) (k : PeerId) (v : V) (e : PeerId × V)
    (he : e ∈ mapSet m k v) : e = (k, v) ∨ e ∈ m := by
  induction m with
  | nil => simpa [mapSet] using he
  | cons a rest ih =>
    by_cases h : a.1 = k
    · simp only [mapSet, h, if_true, List.mem_cons] at he
      rcases he with he | he
      · exact Or.inl he
      · exact Or.inr (List.mem_cons_of_mem _ he)
    · simp only [mapSet, h, if_false, List.mem_cons] at he
      rcases he with he | he
      · exact Or.inr (he ▸ List.mem_cons_self _ _)
      · rcases ih he with h1 | h1
        · exact Or.inl h1
        · exact Or.inr (List.mem_cons_of_mem _ h1)

theorem KeyedByPeer_mapSet (dc : List (PeerId × DataConnection)) (c : DataConnection)
    (h : KeyedByPeer dc) : KeyedByPeer (mapSet dc c.peer c) := by
  refine ⟨mapKeys_mapSet_nodup _ _ _ h.1, ?_⟩
  intro e he
  rcases mem_mapSet _ _ _ _ he with rfl | he
  · rfl
  · exact h.2 e he

theorem KeyedByPeer_mapDelete (dc : List (PeerId × DataConnection)) (k : PeerId)
    (h : KeyedByPeer dc) : KeyedByPeer (mapDelete dc k) := by
  refine ⟨mapKeys_mapDelete_nodup _ _ h.1, ?_⟩
  intro e he
  exact h.2 e (List.mem_of_mem_filter he)

theorem KeyedByPeer_setOpen (i : Nat) (v : Bool) (s : OwnerState)
    (h : KeyedByPeer s.dataConnections) : KeyedByPeer (setOpen i v s).1.dataConnections := by
  simp only [setOpen]
  constructor
  · have hk : ∀ l : List (PeerId × DataConnection),
        mapKeys (l.map (fun e =>
          if e.2.id = i then (e.1, ({ id := e.2.id, peer := e.2.peer, isOpen := v } :
            DataConnection)) else e)) = mapKeys l := by
      intro l
      induction l with
      | nil => rfl
      | cons a rest ih =>
        simp only [mapKeys, List.map_cons, List.cons.injEq] at ih ⊢
        refine ⟨?_, ih⟩
        split <;> rfl
    rw [hk]
    exact h.1
  · intro e he
    simp only [List.mem_map] at he
    obtain ⟨a, ha, hae⟩ := he
    have := h.2 a ha
    split at hae
    · rw [← hae]
      exact this
    · rw [← hae]
      exact this

theorem KeyedByPeer_onData (c : DataConnection) (d : Message) (s : OwnerState)
    (h : KeyedByPeer s.dataConnections) : KeyedByPeer (onData c d s).1.dataConnections := by
  unfold onData
  split
  · simpa [broadcastToAllUsers] using h
  · split
    · simpa [endCall_state] using h
    · simpa using h

theorem KeyedByPeer_onClose (c : DataConnection) (s : OwnerState)
    (h : KeyedByPeer s.dataConnections) : KeyedByPeer (onClose c s).1.dataConnections := by
  unfold onClose
  simp only [updateUserCount]
  split
  · simpa [endCall_state] using KeyedByPeer_mapDelete _ c.peer h
  · exact KeyedByPeer_mapDelete _ c.peer h

theorem KeyedByPeer_acceptCall (t : Bool) (s : OwnerState)
    (h : KeyedByPeer s.dataConnections) : KeyedByPeer (acceptCall t s).1.dataConnections := by
  unfold acceptCall
  split
  · exact h
  · split
    · exact h
    · split <;> exact h

theorem KeyedByPeer_rejectCall (s : OwnerState)
    (h : KeyedByPeer s.dataConnections) : KeyedByPeer (rejectCall s).1.dataConnections := by
  unfold rejectCall
  split
  · cases hc : s.currentCaller with
    | none => simpa using h
    | some p => simpa using h
  · exact h

theorem KeyedByPeer_onCall (c : MediaConnection) (s : OwnerState)
    (h : KeyedByPeer s.dataConnections) : KeyedByPeer (onCall c s).1.dataConnections := by
  unfold onCall
  split <;> exact h

/-- Every callback keeps `dataConnections` a map that stores each connection
under its peer id. -/
theorem KeyedByPeer_ownerStep (s : OwnerState) (ev : OwnerEvent)
    (h : KeyedByPeer s.dataConnections) : KeyedByPeer (ownerStep s ev).1.dataConnections := by
  have hrun : ∀ (n : Nat) (g : OwnerHandler),
      (∀ t, KeyedByPeer t.dataConnections → KeyedByPeer (g t).1.dataConnections) →
      KeyedByPeer (runTimes n g s).1.dataConnections := by
    intro n g hg
    exact runTimes_preserves (fun t => KeyedByPeer t.dataConnections) g hg n s h
  cases ev with
  | microphoneReady => exact h
  | connection c =>
    have : (onConnection c s).1.dataConnections = mapSet s.dataConnections c.peer c := rfl
    simp only [ownerStep, this]
    exact KeyedByPeer_mapSet _ c h
  | call c => exact KeyedByPeer_onCall c s h
  | data c d => exact hrun _ _ (KeyedByPeer_onData c d)
  | close c => exact hrun _ _ (KeyedByPeer_onClose c)
  | openChanged i v => exact KeyedByPeer_setOpen i v s h
  | acceptCall t => exact KeyedByPeer_acceptCall t s h
  | rejectCall => exact KeyedByPeer_rejectCall s h
  | endCall => exact h
  | callStream c => exact hrun _ _ (fun t ht => ht)
  | callClose c => exact hrun _ _ (fun t ht => ht)
  | callError c => exact hrun _ _ (fun t ht => ht)
  | pingTimer d n =>
    simp only [ownerStep, onPingTimer_state]
    exact h

/-- In every state the owner controller reaches, `dataConnections` stores each
connection under its peer id. -/
theorem KeyedByPeer_ownerRun (evs : List OwnerEvent) (s : OwnerState)
    (h : KeyedByPeer s.dataConnections) : KeyedByPeer (ownerRun s evs).dataConnections := by
  induction evs generalizing s with
  | nil => exact h
  | cons ev rest ih =>
    rw [ownerRun_cons]
    exact ih _ (KeyedByPeer_ownerStep s ev h)

/-! ## C1 -/

/-- C1, as stated, fails: two inbound calls from different peers, the second
arriving before the first is accepted or rejected (so `isInCall` is still
false), leave two calls in `mediaConnections`. -/
theorem c1_two_pending_calls_stored :
    OwnerReachable (ownerRun OwnerState.initial
        [OwnerEvent.call { id := 1, peer := "alice" }, OwnerEvent.call { id := 2, peer := "bob" }]) ∧
    ¬ (mapSize (ownerRun OwnerState.initial
        [OwnerEvent.call { id := 1, peer := "alice" },
         OwnerEvent.call { id := 2, peer := "bob" }]).mediaConnections ≤ 1) :=
  ⟨⟨_, rfl⟩, by decide⟩

/-- C1, amended: in every state reachable from the initial state,
`mediaConnections` holds at most one call per peer; and it holds at most one
call in all when every inbound call of the run arrived while `isInCall` was
true or while `mediaConnections` was empty. -/
theorem c1_at_most_one_call (evs : List OwnerEvent) :
    (mapKeys (ownerRun OwnerState.initial evs).mediaConnections).Nodup ∧
    (callsArriveSingly OwnerState.initial evs = true →
      mapSize (ownerRun OwnerState.initial evs).mediaConnections ≤ 1) :=
  ⟨ownerRun_media_nodup evs _ (by simp [OwnerState.initial, mapKeys]),
   fun hg => ownerRun_media_single evs _ (by simp [OwnerState.initial, mapSize]) hg⟩

/-- C1, amended, on a run with a call that is accepted and a second call that
is turned away while the owner is in the first. -/
theorem c1_at_most_one_call_witness :
    callsArriveSingly OwnerState.initial
        [OwnerEvent.microphoneReady, OwnerEvent.call { id := 1, peer := "alice" },
         OwnerEvent.acceptCall false, OwnerEvent.callStream { id := 1, peer := "alice" },
         OwnerEvent.call { id := 2, peer := "bob" }] = true ∧
    mapSize (ownerRun OwnerState.initial
        [OwnerEvent.microphoneReady, OwnerEvent.call { id := 1, peer := "alice" },
         OwnerEvent.acceptCall false, OwnerEvent.callStream { id := 1, peer := "alice" },
         OwnerEvent.call { id := 2, peer := "bob" }]).mediaConnections ≤ 1 :=
  ⟨by decide, (c1_at_most_one_call _).2 (by decide)⟩

/-! ## C2 -/

/-- C2: while `isInCall` is true, the inbound-call callback leaves the whole
owner state unchanged (in particular `currentCaller`, `mediaConnections`,
`isInCall` and `dataConnections`), closes the inbound call and no other,
sends `owner-busy` on the data connection stored for the calling peer when
there is one and sends nothing when there is none, and shows no call
notification. -/
theorem c2_busy_call_rejected (s : OwnerState) (call : MediaConnection)
    (hbusy : s.isInCall = true) :
    (onCall call s).1 = s ∧
    closedCalls (onCall call s).2 = [call] ∧
    (∀ userConn, mapGet s.dataConnections call.peer = some userConn →
      (onCall call s).2 = [Effect.send userConn msgOwnerBusy, Effect.closeCall call]) ∧
    (mapGet s.dataConnections call.peer = none →
      (onCall call s).2 = [Effect.closeCall call]) ∧
    (∀ p, Effect.showCallNotification p ∉ (onCall call s).2) := by
  unfold onCall
  simp only [hbusy, if_true]
  cases hget : mapGet s.dataConnections call.peer with
  | none => simp [closedCalls]
  | some userConn => simp [closedCalls]

/-- C2 on a busy owner with one connected user who calls again. -/
theorem c2_busy_call_rejected_witness :
    (ownerRun OwnerState.initial
        [OwnerEvent.connection { id := 1, peer := "bob", isOpen := true },
         OwnerEvent.data { id := 1, peer := "bob", isOpen := true } msgCallStarted]).isInCall
      = true ∧
    (onCall { id := 5, peer := "bob" }
        (ownerRun OwnerState.initial
          [OwnerEvent.connection { id := 1, peer := "bob", isOpen := true },
           OwnerEvent.data { id := 1, peer := "bob", isOpen := true } msgCallStarted])).2
      = [Effect.send { id := 1, peer := "bob", isOpen := true } msgOwnerBusy,
         Effect.closeCall { id := 5, peer := "bob" }] :=
  ⟨by decide,
   (c2_busy_call_rejected _ { id := 5, peer := "bob" } (by decide)).2.2.1 _ (by decide)⟩

/-! ## C3 -/

/-- C3, as stated, fails: with an offer from `alice` pending (stored, neither
accepted nor rejected, `isInCall` false), an inbound call from `bob` makes
`bob` the current caller and is stored in `mediaConnections`. -/
theorem c3_second_offer_replaces_first :
    pendingAlice.currentCaller = some "alice" ∧
    mapGet pendingAlice.mediaConnections "alice" = some { id := 1, peer := "alice" } ∧
    pendingAlice.isInCall = false ∧
    (onCall { id := 2, peer := "bob" } pendingAlice).1.currentCaller = some "bob" ∧
    mapGet (onCall { id := 2, peer := "bob" } pendingAlice).1.mediaConnections "bob"
      = some { id := 2, peer := "bob" } := by
  decide

/-- C3, amended: with `currentCaller = p` and an inbound call from a peer
`q ≠ p`, the callback keeps `currentCaller = p` and leaves `mediaConnections`
unchanged when `isInCall` is true; when `isInCall` is false it makes `q` the
current caller and stores the call under `q`. -/
theorem c3_offer_gated_by_isInCall (s : OwnerState) (p : PeerId) (call : MediaConnection)
    (hp : s.currentCaller = some p) (hq : call.peer ≠ p) :
    (s.isInCall = true →
      (onCall call s).1.currentCaller = some p ∧
      (onCall call s).1.mediaConnections = s.mediaConnections) ∧
    (s.isInCall = false →
      (onCall call s).1.currentCaller = some call.peer ∧
      (onCall call s).1.currentCaller ≠ some p ∧
      mapGet (onCall call s).1.mediaConnections call.peer = some call) := by
  constructor
  · intro hin
    simp [onCall, hin, hp]
  · intro hin
    simp [onCall, hin, mapGet_mapSet_self, hq]

/-- C3, amended, on the pending offer from `alice` and a call from `bob`. -/
theorem c3_offer_gated_by_isInCall_witness :
    pendingAlice.currentCaller = some "alice" ∧
    ({ id := 2, peer := "bob" } : MediaConnection).peer ≠ "alice" ∧
    (pendingAlice.isInCall = false →
      (onCall { id := 2, peer := "bob" } pendingAlice).1.currentCaller = some "bob" ∧
      (onCall { id := 2, peer := "bob" } pendingAlice).1.currentCaller ≠ some "alice" ∧
      mapGet (onCall { id := 2, peer := "bob" } pendingAlice).1.mediaConnections "bob"
        = some { id := 2, peer := "bob" }) :=
  ⟨by decide, by decide,
   (c3_offer_gated_by_isInCall pendingAlice "alice" { id := 2, peer := "bob" }
      (by decide) (by decide)).2⟩


/-! ## C4 -/

theorem send_injective (data : Message) :
    Function.Injective (fun conn : DataConnection => Effect.send conn data) := by
  intro a b h
  simpa using h

theorem broadcast_effects_map (data : Message) (excludePeer : Option PeerId) (s : OwnerState) :
    (broadcastToAllUsers data excludePeer s).2
      = ((s.dataConnections.filter
            (fun e => decide (some e.1 ≠ excludePeer ∧ e.2.isOpen = true))).map Prod.snd).map
          (fun conn => Effect.send conn data) := by
  rw [broadcastToAllUsers_effects, List.map_map]
  rfl

theorem connections_nodup (dc : List (PeerId × DataConnection))
    (hkeys : (mapKeys dc).Nodup) (hpeer : ∀ e ∈ dc, e.2.peer = e.1) :
    (dc.map Prod.snd).Nodup := by
  refine List.Nodup.map_on ?_ (List.Nodup.of_map Prod.fst hkeys)
  intro x hx y hy hxy
  have h1 : x.1 = y.1 := by rw [← hpeer x hx, ← hpeer y hy, hxy]
  exact Prod.ext h1 hxy

/-- C4: for a map that stores each connection under its peer id,
`broadcastToAllUsers` leaves the owner state unchanged; everything it does is
a `send` of the given message to a stored connection that is open and whose
peer is not `excludePeer`; each such connection receives the message exactly
once; a stored connection that is closed or belongs to `excludePeer` receives
nothing. -/
theorem c4_broadcast (s : OwnerState) (data : Message) (excludePeer : Option PeerId)
    (hkeys : (mapKeys s.dataConnections).Nodup)
    (hpeer : ∀ e ∈ s.dataConnections, e.2.peer = e.1) :
    (broadcastToAllUsers data excludePeer s).1 = s ∧
    (∀ eff ∈ (broadcastToAllUsers data excludePeer s).2,
      ∃ conn, eff = Effect.send conn data ∧ (conn.peer, conn) ∈ s.dataConnections ∧
        conn.isOpen = true ∧ some conn.peer ≠ excludePeer) ∧
    (∀ conn, (conn.peer, conn) ∈ s.dataConnections → conn.isOpen = true →
      some conn.peer ≠ excludePeer →
      (broadcastToAllUsers data excludePeer s).2.count (Effect.send conn data) = 1) ∧
    (∀ conn, (conn.peer, conn) ∈ s.dataConnections →
      (conn.isOpen = false ∨ some conn.peer = excludePeer) →
      ∀ m, Effect.send conn m ∉ (broadcastToAllUsers data excludePeer s).2) := by
  have hsnd := connections_nodup s.dataConnections hkeys hpeer
  have hmem : ∀ conn,
      Effect.send conn data ∈ (broadcastToAllUsers data excludePeer s).2 ↔
        ∃ k, (k, conn) ∈ s.dataConnections ∧ some k ≠ excludePeer ∧ conn.isOpen = true := by
    intro conn
    rw [broadcastToAllUsers_effects]
    simp only [List.mem_map, List.mem_filter, decide_eq_true_eq]
    constructor
    · rintro ⟨e, ⟨he, hq⟩, heq⟩
      have : e.2 = conn := by simpa using heq
      exact ⟨e.1, by rw [← this]; exact he, hq.1, by rw [← this]; exact hq.2⟩
    · rintro ⟨k, hk, hq1, hq2⟩
      exact ⟨(k, conn), ⟨hk, hq1, hq2⟩, rfl⟩
  refine ⟨rfl, ?_, ?_, ?_⟩
  · intro eff heff
    rw [broadcastToAllUsers_effects] at heff
    simp only [List.mem_map, List.mem_filter, decide_eq_true_eq] at heff
    obtain ⟨e, ⟨he, hq⟩, heq⟩ := heff
    refine ⟨e.2, heq.symm, ?_, hq.2, ?_⟩
    · rw [hpeer e he]; exact he
    · rw [hpeer e he]; exact hq.1
  · intro conn hconn hopen hex
    apply List.count_eq_one_of_mem
    · rw [broadcast_effects_map]
      exact List.Nodup.map (send_injective data)
        (List.Nodup.sublist ((List.filter_sublist _).map Prod.snd) hsnd)
    · exact (hmem conn).2 ⟨conn.peer, hconn, hex, hopen⟩
  · intro conn hconn hbad m hm
    rw [broadcastToAllUsers_effects] at hm
    simp only [List.mem_map, List.mem_filter, decide_eq_true_eq] at hm
    obtain ⟨e, ⟨he, hq⟩, heq⟩ := hm
    have h2 : e.2 = conn := by
      have := heq
      simp only [Effect.send.injEq] at this
      exact this.1
    have h1 : e.1 = conn.peer := by rw [← hpeer e he, h2]
    rcases hbad with hbad | hbad
    · rw [h2, hbad] at hq
      exact Bool.false_ne_true hq.2
    · rw [h1] at hq
      exact hq.1 hbad

/-- C4 on a map with an open connection, a closed one and the excluded peer. -/
theorem c4_broadcast_witness :
    (mapKeys ({ OwnerState.initial with dataConnections :=
        [("ann", { id := 1, peer := "ann", isOpen := true }),
         ("bob", { id := 2, peer := "bob", isOpen := false }),
         ("cat", { id := 3, peer := "cat", isOpen := true })] } : OwnerState).dataConnections).Nodup ∧
    (broadcastToAllUsers msgOwnerBusy (some "cat")
      { OwnerState.initial with dataConnections :=
        [("ann", { id := 1, peer := "ann", isOpen := true }),
         ("bob", { id := 2, peer := "bob", isOpen := false }),
         ("cat", { id := 3, peer := "cat", isOpen := true })] }).2.count
      (Effect.send { id := 1, peer := "ann", isOpen := true } msgOwnerBusy) = 1 :=
  ⟨by decide,
   (c4_broadcast
      { OwnerState.initial with dataConnections :=
        [("ann", { id := 1, peer := "ann", isOpen := true }),
         ("bob", { id := 2, peer := "bob", isOpen := false }),
         ("cat", { id := 3, peer := "cat", isOpen := true })] }
      msgOwnerBusy (some "cat") (by decide) (by decide)).2.2.1
      { id := 1, peer := "ann", isOpen := true } (by decide) (by decide) (by decide)⟩


/-! ## C5 -/

/-- C5: on a `call-started` message received on the data connection of peer
`p`, `isInCall` becomes true; `dataConnections`, `mediaConnections` and
`currentCaller` are unchanged; after the status indicator is updated, the
callback sends `owner-status: busy` once per entry of `dataConnections` that is
open and not stored under `p`, and nothing else: every such connection gets
the message, and nothing is sent on a connection of `p`. -/
theorem c5_call_started (s : OwnerState) (connection : DataConnection) (data : Message)
    (htype : data.type = "call-started") :
    (onData connection data s).1.isInCall = true ∧
    (onData connection data s).1.dataConnections = s.dataConnections ∧
    (onData connection data s).1.mediaConnections = s.mediaConnections ∧
    (onData connection data s).1.currentCaller = s.currentCaller ∧
    (onData connection data s).2
      = Effect.updateStatus "busy" ::
          (s.dataConnections.filter
              (fun e => decide (e.1 ≠ connection.peer) && e.2.isOpen)).map
            (fun e => Effect.send e.2 (msgOwnerStatus "busy")) ∧
    (∀ k conn, (k, conn) ∈ s.dataConnections → k ≠ connection.peer → conn.isOpen = true →
      Effect.send conn (msgOwnerStatus "busy") ∈ (onData connection data s).2) ∧
    (∀ conn m, Effect.send conn m ∈ (onData connection data s).2 →
      m = msgOwnerStatus "busy" ∧
      ∃ k, (k, conn) ∈ s.dataConnections ∧ k ≠ connection.peer ∧ conn.isOpen = true) ∧
    ((∀ e ∈ s.dataConnections, e.2.peer = e.1) →
      ∀ conn m, Effect.send conn m ∈ (onData connection data s).2 →
        conn.peer ≠ connection.peer) := by
  have heff : (onData connection data s).2
      = Effect.updateStatus "busy" ::
          (s.dataConnections.filter
              (fun e => decide (e.1 ≠ connection.peer) && e.2.isOpen)).map
            (fun e => Effect.send e.2 (msgOwnerStatus "busy")) := by
    simp only [onData, htype, if_true]
    rw [broadcastToAllUsers_effects]
    simp
  have hsent : ∀ conn m, Effect.send conn m ∈ (onData connection data s).2 →
      m = msgOwnerStatus "busy" ∧
      ∃ k, (k, conn) ∈ s.dataConnections ∧ k ≠ connection.peer ∧ conn.isOpen = true := by
    intro conn m hm
    rw [heff] at hm
    simp only [List.mem_cons, List.mem_map, List.mem_filter, Bool.and_eq_true,
      decide_eq_true_eq] at hm
    rcases hm with hm | ⟨e, ⟨he, hq⟩, heq⟩
    · exact absurd hm (by simp)
    · simp only [Effect.send.injEq] at heq
      exact ⟨heq.2.symm, e.1, by rw [← heq.1]; exact he, hq.1, by rw [← heq.1]; exact hq.2⟩
  refine ⟨?_, ?_, ?_, ?_, heff, ?_, hsent, ?_⟩
  · simp [onData, htype, broadcastToAllUsers]
  · simp [onData, htype, broadcastToAllUsers]
  · simp [onData, htype, broadcastToAllUsers]
  · simp [onData, htype, broadcastToAllUsers]
  · intro k conn hk hne hopen
    rw [heff]
    simp only [List.mem_cons, List.mem_map, List.mem_filter, Bool.and_eq_true,
      decide_eq_true_eq]
    exact Or.inr ⟨(k, conn), ⟨hk, hne, hopen⟩, rfl⟩
  · intro hpeer conn m hm
    obtain ⟨_, k, hk, hne, _⟩ := hsent conn m hm
    have := hpeer (k, conn) hk
    simp only at this
    rw [this]
    exact hne

/-- C5 on an owner with three connected users, the first of whom reports the
start of a call. -/
theorem c5_call_started_witness :
    msgCallStarted.type = "call-started" ∧
    (onData { id := 1, peer := "ann", isOpen := true } msgCallStarted
      { OwnerState.initial with dataConnections :=
        [("ann", { id := 1, peer := "ann", isOpen := true }),
         ("bob", { id := 2, peer := "bob", isOpen := false }),
         ("cat", { id := 3, peer := "cat", isOpen := true })] }).2
      = [Effect.updateStatus "busy",
         Effect.send { id := 3, peer := "cat", isOpen := true } (msgOwnerStatus "busy")] :=
  ⟨by decide,
   ((c5_call_started
      { OwnerState.initial with dataConnections :=
        [("ann", { id := 1, peer := "ann", isOpen := true }),
         ("bob", { id := 2, peer := "bob", isOpen := false }),
         ("cat", { id := 3, peer := "cat", isOpen := true })] }
      { id := 1, peer := "ann", isOpen := true } msgCallStarted (by decide)).2.2.2.2.1).trans
    (by decide)⟩

/-! ## C6 -/

theorem endCall_sentMessages (s : OwnerState) :
    ∀ m ∈ sentMessages (endCall s).2, m = msgOwnerStatus "available" := by
  intro m hm
  rw [endCall_effects] at hm
  simp only [sentMessages, List.filterMap_append, List.filterMap_map, Function.comp_def,
    List.mem_append, List.mem_filterMap] at hm
  rcases hm with ((hm | hm) | hm) | hm
  · obtain ⟨e, _, he⟩ := hm
    simp at he
  · obtain ⟨e, he, hx⟩ := hm
    simp only [List.mem_cons, List.mem_singleton] at he
    rcases he with rfl | rfl | rfl | he
    · simp at hx
    · simp at hx
    · simp at hx
    · simp at he
  · obtain ⟨e, _, he⟩ := hm
    simp only [Option.some.injEq] at he
    exact he.symm
  · obtain ⟨e, he, hx⟩ := hm
    simp only [List.mem_singleton] at he
    subst he
    simp at hx

/-- C6: after `endCall`, `mediaConnections` is empty, `isInCall` is false,
`currentCaller` is null and `dataConnections` is unchanged; the calls closed
are exactly the calls that were stored, each once; `owner-status: available`
is sent once per open entry of `dataConnections`, with no peer left out, and no
other message is sent. -/
theorem c6_endCall (s : OwnerState) :
    (endCall s).1.mediaConnections = [] ∧
    (endCall s).1.isInCall = false ∧
    (endCall s).1.currentCaller = none ∧
    (endCall s).1.dataConnections = s.dataConnections ∧
    closedCalls (endCall s).2 = s.mediaConnections.map Prod.snd ∧
    (∀ k call, (k, call) ∈ s.mediaConnections → Effect.closeCall call ∈ (endCall s).2) ∧
    sentTo (msgOwnerStatus "available") (endCall s).2
      = (s.dataConnections.filter (fun e => e.2.isOpen)).map Prod.snd ∧
    (∀ k conn, (k, conn) ∈ s.dataConnections → conn.isOpen = true →
      Effect.send conn (msgOwnerStatus "available") ∈ (endCall s).2) ∧
    (∀ m ∈ sentMessages (endCall s).2, m = msgOwnerStatus "available") := by
  refine ⟨rfl, rfl, rfl, rfl, ?_, ?_, ?_, ?_, ?_⟩
  · rw [endCall_effects]
    simp [closedCalls, List.filterMap_append, List.filterMap_map, Function.comp_def,
      filterMap_some_eq_map, filterMap_none_eq_nil]
  · intro k call hk
    rw [endCall_effects]
    simp only [List.mem_append, List.mem_map]
    exact Or.inl (Or.inl (Or.inl ⟨(k, call), hk, rfl⟩))
  · rw [endCall_effects]
    simp [sentTo, List.filterMap_append, List.filterMap_map, Function.comp_def,
      filterMap_some_eq_map, filterMap_none_eq_nil]
  · intro k conn hk hopen
    rw [endCall_effects]
    simp only [List.mem_append, List.mem_map, List.mem_filter]
    exact Or.inl (Or.inr ⟨(k, conn), ⟨hk, hopen⟩, rfl⟩)
  · exact endCall_sentMessages s

/-! ## C7 -/

/-- C7: when a user with peer id `p` opens a data connection, the callback
stores the connection under `p`, performs exactly one effect, the `send` of
`owner-status` on that connection with status `busy` if `isInCall` is true and
`available` otherwise, and leaves `isInCall`, `currentCaller` and
`mediaConnections` unchanged. -/
theorem c7_connection_status (s : OwnerState) (connection : DataConnection) :
    mapGet (onConnection connection s).1.dataConnections connection.peer = some connection ∧
    (onConnection connection s).2
      = [Effect.send connection
          (msgOwnerStatus (if s.isInCall = true then "busy" else "available"))] ∧
    (onConnection connection s).1.isInCall = s.isInCall ∧
    (onConnection connection s).1.currentCaller = s.currentCaller ∧
    (onConnection connection s).1.mediaConnections = s.mediaConnections := by
  refine ⟨?_, ?_, rfl, rfl, rfl⟩
  · simp [onConnection, updateUserCount, mapGet_mapSet_self]
  · simp [onConnection, updateUserCount]

/-! ## C8 -/

theorem inVocabulary_ownerStatus (b : Bool) :
    inVocabulary (msgOwnerStatus (if b = true then "busy" else "available")) := by
  cases b <;> simp [inVocabulary, msgOwnerStatus, messageTypes]

theorem inVocabulary_ownerStatus_busy : inVocabulary (msgOwnerStatus "busy") := by
  simp [inVocabulary, msgOwnerStatus, messageTypes]

theorem inVocabulary_ownerStatus_available : inVocabulary (msgOwnerStatus "available") := by
  simp [inVocabulary, msgOwnerStatus, messageTypes]

theorem inVocabulary_ownerBusy : inVocabulary msgOwnerBusy := by
  simp [inVocabulary, msgOwnerBusy, messageTypes]

theorem inVocabulary_callAccepted : inVocabulary msgCallAccepted := by
  simp [inVocabulary, msgCallAccepted, messageTypes]

theorem inVocabulary_callRejected : inVocabulary msgCallRejected := by
  simp [inVocabulary, msgCallRejected, messageTypes]

theorem inVocabulary_ping (now : Nat) : inVocabulary (msgPing now) := by
  simp [inVocabulary, msgPing, messageTypes]

theorem userMessageOk_callStarted (pid : String) : UserMessageOk pid msgCallStarted := by
  simp [UserMessageOk, inVocabulary, msgCallStarted, messageTypes]

theorem userMessageOk_callEnded (pid : String) : UserMessageOk pid msgCallEnded := by
  simp [UserMessageOk, inVocabulary, msgCallEnded, messageTypes]

theorem userMessageOk_userConnected (pid : String) :
    UserMessageOk pid (msgUserConnected pid) := by
  simp [UserMessageOk, inVocabulary, msgUserConnected, messageTypes]

theorem mem_sentMessages (m : Message) (effs : List Effect) :
    m ∈ sentMessages effs ↔ ∃ conn, Effect.send conn m ∈ effs := by
  simp only [sentMessages, List.mem_filterMap]
  constructor
  · rintro ⟨e, he, hm⟩
    cases e with
    | send conn data =>
      simp only [Option.some.injEq] at hm
      exact ⟨conn, hm ▸ he⟩
    | _ => simp at hm
  · rintro ⟨conn, h⟩
    exact ⟨_, h, rfl⟩

theorem SendsOnly_nil (P : Message → Prop) : SendsOnly P [] := by
  intro conn m h
  simp at h

theorem SendsOnly_append (P : Message → Prop) (a b : List Effect)
    (ha : SendsOnly P a) (hb : SendsOnly P b) : SendsOnly P (a ++ b) := by
  intro conn m h
  rcases List.mem_append.1 h with h | h
  · exact ha conn m h
  · exact hb conn m h

theorem SendsOnly_cons_send (P : Message → Prop) (c : DataConnection) (d : Message)
    (rest : List Effect) (hd : P d) (hr : SendsOnly P rest) :
    SendsOnly P (Effect.send c d :: rest) := by
  intro conn m h
  rcases List.mem_cons.1 h with h | h
  · simp only [Effect.send.injEq] at h
    exact h.2 ▸ hd
  · exact hr conn m h

theorem SendsOnly_cons_other (P : Message → Prop) (e : Effect) (rest : List Effect)
    (he : ∀ c d, e ≠ Effect.send c d) (hr : SendsOnly P rest) :
    SendsOnly P (e :: rest) := by
  intro conn m h
  rcases List.mem_cons.1 h with h | h
  · exact absurd h.symm (he conn m)
  · exact hr conn m h

theorem SendsOnly_broadcast (P : Message → Prop) (data : Message) (ex : Option PeerId)
    (s : OwnerState) (hd : P data) : SendsOnly P (broadcastToAllUsers data ex s).2 := by
  intro conn m h
  rw [broadcastToAllUsers_effects] at h
  simp only [List.mem_map] at h
  obtain ⟨e, _, he⟩ := h
  simp only [Effect.send.injEq] at he
  exact he.2 ▸ hd

theorem SendsOnly_endCall (s : OwnerState) : SendsOnly inVocabulary (endCall s).2 := by
  intro conn m h
  have := (endCall_sentMessages s) m ((mem_sentMessages m _).2 ⟨conn, h⟩)
  exact this ▸ inVocabulary_ownerStatus_available


theorem SendsOnly_runTimes (P : Message → Prop) (h : OwnerHandler)
    (hP : ∀ s, SendsOnly P (h s).2) (n : Nat) (s : OwnerState) :
    SendsOnly P (runTimes n h s).2 := by
  induction n generalizing s with
  | zero => simpa [runTimes] using SendsOnly_nil P
  | succ k ih =>
    simp only [runTimes]
    exact SendsOnly_append P _ _ (hP s) (ih (h s).1)

theorem SendsOnly_onConnection (c : DataConnection) (s : OwnerState) :
    SendsOnly inVocabulary (onConnection c s).2 := by
  have h : (onConnection c s).2
      = [Effect.send c (msgOwnerStatus (if s.isInCall = true then "busy" else "available"))] := by
    simp [onConnection, updateUserCount]
  rw [h]
  exact SendsOnly_cons_send _ _ _ _ (inVocabulary_ownerStatus s.isInCall) (SendsOnly_nil _)

theorem SendsOnly_onCall (c : MediaConnection) (s : OwnerState) :
    SendsOnly inVocabulary (onCall c s).2 := by
  unfold onCall
  split
  · cases mapGet s.dataConnections c.peer with
    | none =>
      exact SendsOnly_cons_other _ _ _ (fun _ _ h => by simp at h) (SendsOnly_nil _)
    | some userConn =>
      exact SendsOnly_cons_send _ _ _ _ inVocabulary_ownerBusy
        (SendsOnly_cons_other _ _ _ (fun _ _ h => by simp at h) (SendsOnly_nil _))
  · exact SendsOnly_cons_other _ _ _ (fun _ _ h => by simp at h) (SendsOnly_nil _)

theorem SendsOnly_onData (c : DataConnection) (d : Message) (s : OwnerState) :
    SendsOnly inVocabulary (onData c d s).2 := by
  unfold onData
  split
  · exact SendsOnly_cons_other _ _ _ (fun _ _ h => by simp at h)
      (SendsOnly_broadcast _ _ _ _ inVocabulary_ownerStatus_busy)
  · split
    · exact SendsOnly_endCall s
    · exact SendsOnly_nil _

theorem SendsOnly_onClose (c : DataConnection) (s : OwnerState) :
    SendsOnly inVocabulary (onClose c s).2 := by
  unfold onClose
  simp only [updateUserCount]
  split
  · exact SendsOnly_endCall _
  · exact SendsOnly_nil _

theorem SendsOnly_onCallStream (s : OwnerState) :
    SendsOnly inVocabulary (onCallStream s).2 := by
  unfold onCallStream
  refine SendsOnly_append _ _ _ ?_ ?_
  · exact SendsOnly_cons_other _ _ _ (fun _ _ h => by simp at h)
      (SendsOnly_cons_other _ _ _ (fun _ _ h => by simp at h)
        (SendsOnly_cons_other _ _ _ (fun _ _ h => by simp at h) (SendsOnly_nil _)))
  · simp only
    cases mapGetOpt s.dataConnections s.currentCaller with
    | none => exact SendsOnly_nil _
    | some userConn =>
      exact SendsOnly_cons_send _ _ _ _ inVocabulary_callAccepted (SendsOnly_nil _)

theorem SendsOnly_onCallError (s : OwnerState) :
    SendsOnly inVocabulary (onCallError s).2 := by
  have h : (onCallError s).2 = (endCall s).2 ++ [Effect.showNotification "Call error" "error"] :=
    rfl
  rw [h]
  exact SendsOnly_append _ _ _ (SendsOnly_endCall s)
    (SendsOnly_cons_other _ _ _ (fun _ _ h => by simp at h) (SendsOnly_nil _))

theorem SendsOnly_acceptCall (t : Bool) (s : OwnerState) :
    SendsOnly inVocabulary (acceptCall t s).2 := by
  unfold acceptCall
  split
  · exact SendsOnly_nil _
  · split
    · exact SendsOnly_nil _
    · split
      · exact SendsOnly_cons_other _ _ _ (fun _ _ h => by simp at h) (SendsOnly_nil _)
      · exact SendsOnly_cons_other _ _ _ (fun _ _ h => by simp at h) (SendsOnly_nil _)

theorem SendsOnly_rejectCall (s : OwnerState) :
    SendsOnly inVocabulary (rejectCall s).2 := by
  unfold rejectCall
  split
  · simp only
    refine SendsOnly_append _ _ _ (SendsOnly_append _ _ _ ?_ ?_) ?_
    · cases mapGetOpt s.dataConnections s.currentCaller with
      | none => exact SendsOnly_nil _
      | some userConn =>
        exact SendsOnly_cons_send _ _ _ _ inVocabulary_callRejected (SendsOnly_nil _)
    · cases mapGetOpt s.mediaConnections s.currentCaller with
      | none => exact SendsOnly_nil _
      | some call =>
        exact SendsOnly_cons_other _ _ _ (fun _ _ h => by simp at h) (SendsOnly_nil _)
    · exact SendsOnly_cons_other _ _ _ (fun _ _ h => by simp at h) (SendsOnly_nil _)
  · exact SendsOnly_nil _

theorem SendsOnly_onPingTimer (d : Bool) (n : Nat) (s : OwnerState) :
    SendsOnly inVocabulary (onPingTimer d n s).2 := by
  unfold onPingTimer
  split
  · exact SendsOnly_broadcast _ _ _ _ (inVocabulary_ping n)
  · exact SendsOnly_nil _

/-- Every message the owner controller sends, in any state and for any event,
is in the vocabulary. -/
theorem SendsOnly_ownerStep (s : OwnerState) (ev : OwnerEvent) :
    SendsOnly inVocabulary (ownerStep s ev).2 := by
  cases ev with
  | microphoneReady => exact SendsOnly_nil _
  | connection c => exact SendsOnly_onConnection c s
  | call c => exact SendsOnly_onCall c s
  | data c d => exact SendsOnly_runTimes _ _ (SendsOnly_onData c d) _ s
  | close c => exact SendsOnly_runTimes _ _ (SendsOnly_onClose c) _ s
  | openChanged i v => exact SendsOnly_nil _
  | acceptCall t => exact SendsOnly_acceptCall t s
  | rejectCall => exact SendsOnly_rejectCall s
  | endCall => exact SendsOnly_endCall s
  | callStream c => exact SendsOnly_runTimes _ _ SendsOnly_onCallStream _ s
  | callClose c => exact SendsOnly_runTimes _ _ SendsOnly_endCall _ s
  | callError c => exact SendsOnly_runTimes _ _ SendsOnly_onCallError _ s
  | pingTimer d n => exact SendsOnly_onPingTimer d n s


theorem userEndCall_peerId (s : UserState) : (userEndCall s).1.peerId = s.peerId := rfl

theorem SendsOnly_userEndCall (s : UserState) :
    SendsOnly (UserMessageOk s.peerId) (userEndCall s).2 := by
  unfold userEndCall
  simp only
  refine SendsOnly_append _ _ _ ?_ ?_
  · cases s.call with
    | none => exact SendsOnly_nil _
    | some c => exact SendsOnly_cons_other _ _ _ (fun _ _ h => by simp at h) (SendsOnly_nil _)
  · cases s.conn with
    | none => exact SendsOnly_nil _
    | some c =>
      simp only
      split
      · exact SendsOnly_cons_send _ _ _ _ (userMessageOk_callEnded _) (SendsOnly_nil _)
      · exact SendsOnly_nil _

theorem userOnData_peerId (d : Message) (s : UserState) :
    (userOnData d s).1.peerId = s.peerId := by
  unfold userOnData
  split
  · split
    · rfl
    · split <;> rfl
  · split
    · rfl
    · split <;> rfl

theorem SendsOnly_userOnData (d : Message) (s : UserState) :
    SendsOnly (UserMessageOk s.peerId) (userOnData d s).2 := by
  unfold userOnData
  split
  · split
    · exact SendsOnly_nil _
    · split <;> exact SendsOnly_nil _
  · split
    · exact SendsOnly_cons_other _ _ _ (fun _ _ h => by simp at h) (SendsOnly_userEndCall s)
    · split
      · exact SendsOnly_cons_other _ _ _ (fun _ _ h => by simp at h) (SendsOnly_userEndCall s)
      · exact SendsOnly_nil _

theorem SendsOnly_userOnOpen (c : DataConnection) (s : UserState) :
    SendsOnly (UserMessageOk s.peerId) (userOnOpen c s).2 := by
  unfold userOnOpen
  exact SendsOnly_cons_other _ _ _ (fun _ _ h => by simp at h)
    (SendsOnly_cons_send _ _ _ _ (userMessageOk_userConnected _) (SendsOnly_nil _))

theorem SendsOnly_userOnOutStream (s : UserState) :
    SendsOnly (UserMessageOk s.peerId) (userOnOutStream s).2 := by
  unfold userOnOutStream
  simp only
  refine SendsOnly_cons_other _ _ _ (fun _ _ h => by simp at h) ?_
  cases s.conn with
  | none => exact SendsOnly_nil _
  | some c => exact SendsOnly_cons_send _ _ _ _ (userMessageOk_callStarted _) (SendsOnly_nil _)

theorem SendsOnly_userOnCallOver (msg : String) (s : UserState) :
    SendsOnly (UserMessageOk s.peerId) (userOnCallOver msg s).2 := by
  have h : (userOnCallOver msg s).2 = (userEndCall s).2 ++ [Effect.updateCallStatus msg] := rfl
  rw [h]
  exact SendsOnly_append _ _ _ (SendsOnly_userEndCall s)
    (SendsOnly_cons_other _ _ _ (fun _ _ h => by simp at h) (SendsOnly_nil _))

theorem SendsOnly_connectToOwner (i : String) (n : Option DataConnection) (s : UserState) :
    SendsOnly (UserMessageOk s.peerId) (connectToOwner i n s).2 := by
  unfold connectToOwner
  split
  · exact SendsOnly_cons_other _ _ _ (fun _ _ h => by simp at h) (SendsOnly_nil _)
  · cases n with
    | none => exact SendsOnly_cons_other _ _ _ (fun _ _ h => by simp at h) (SendsOnly_nil _)
    | some c => exact SendsOnly_cons_other _ _ _ (fun _ _ h => by simp at h) (SendsOnly_nil _)

theorem SendsOnly_reconnectToOwner (i : String) (n : Option DataConnection) (s : UserState) :
    SendsOnly (UserMessageOk s.peerId) (reconnectToOwner i n s).2 := by
  unfold reconnectToOwner
  split
  · exact SendsOnly_cons_other _ _ _ (fun _ _ h => by simp at h) (SendsOnly_connectToOwner i n s)
  · exact SendsOnly_nil _

theorem SendsOnly_startCall (n : Option MediaConnection) (s : UserState) :
    SendsOnly (UserMessageOk s.peerId) (startCall n s).2 := by
  unfold startCall
  split
  · exact SendsOnly_cons_other _ _ _ (fun _ _ h => by simp at h) (SendsOnly_nil _)
  · cases n with
    | some c => exact SendsOnly_cons_other _ _ _ (fun _ _ h => by simp at h) (SendsOnly_nil _)
    | none =>
      exact SendsOnly_cons_other _ _ _ (fun _ _ h => by simp at h)
        (SendsOnly_cons_other _ _ _ (fun _ _ h => by simp at h)
          (SendsOnly_userEndCall { s with call := none, callBtnDisabled := true }))

theorem SendsOnly_onCallBtnClick (n : Option MediaConnection) (s : UserState) :
    SendsOnly (UserMessageOk s.peerId) (onCallBtnClick n s).2 := by
  unfold onCallBtnClick
  cases s.call with
  | none => exact SendsOnly_startCall n s
  | some c => exact SendsOnly_userEndCall s

theorem userRunTimes_peerId (h : UserHandler) (hp : ∀ s, (h s).1.peerId = s.peerId)
    (n : Nat) (s : UserState) : (userRunTimes n h s).1.peerId = s.peerId := by
  induction n generalizing s with
  | zero => rfl
  | succ k ih =>
    simp only [userRunTimes]
    rw [ih (h s).1, hp s]

theorem SendsOnly_userRunTimes (h : UserHandler) (hp : ∀ s, (h s).1.peerId = s.peerId)
    (hP : ∀ s, SendsOnly (UserMessageOk s.peerId) (h s).2) (n : Nat) (s : UserState) :
    SendsOnly (UserMessageOk s.peerId) (userRunTimes n h s).2 := by
  induction n generalizing s with
  | zero => exact SendsOnly_nil _
  | succ k ih =>
    simp only [userRunTimes]
    refine SendsOnly_append _ _ _ (hP s) ?_
    have := ih (h s).1
    rw [hp s] at this
    exact this

theorem userSetOpen_peerId (i : Nat) (v : Bool) (s : UserState) :
    (userSetOpen i v s).1.peerId = s.peerId := by
  unfold userSetOpen
  cases s.conn with
  | none => rfl
  | some c =>
    simp only
    split <;> rfl

/-- Every message the user controller sends, in any state and for any event,
is in the vocabulary, and a `user-connected` message carries the peer id of
the sender. -/
theorem SendsOnly_userStep (s : UserState) (ev : UserEvent) :
    SendsOnly (UserMessageOk s.peerId) (userStep s ev).2 := by
  cases ev with
  | microphoneReady => exact SendsOnly_nil _
  | connection c => exact SendsOnly_nil _
  | call c t =>
    simp only [userStep, userOnCall]
    split
    · exact SendsOnly_nil _
    · exact SendsOnly_cons_other _ _ _ (fun _ _ h => by simp at h) (SendsOnly_nil _)
  | connectClick i n => exact SendsOnly_connectToOwner i n s
  | reconnectTimer i n => exact SendsOnly_reconnectToOwner i n s
  | callBtnClick n => exact SendsOnly_onCallBtnClick n s
  | connOpen c =>
    have := SendsOnly_userRunTimes (userOnOpen c) (fun _ => rfl) (SendsOnly_userOnOpen c)
      ((userSetOpen c.id true s).1.connListeners.count c.id) (userSetOpen c.id true s).1
    rw [userSetOpen_peerId] at this
    exact this
  | data c d =>
    exact SendsOnly_userRunTimes _ (userOnData_peerId d) (SendsOnly_userOnData d) _ s
  | connClose c =>
    have := SendsOnly_userRunTimes userOnClose (fun _ => rfl)
      (fun t => SendsOnly_cons_other _ _ _ (fun _ _ h => by simp at h) (SendsOnly_nil _))
      ((userSetOpen c.id false s).1.connListeners.count c.id) (userSetOpen c.id false s).1
    rw [userSetOpen_peerId] at this
    exact this
  | callStream c =>
    simp only [userStep]
    refine SendsOnly_append _ _ _
      (SendsOnly_userRunTimes _ (fun _ => rfl) SendsOnly_userOnOutStream _ s) ?_
    have := SendsOnly_userRunTimes userOnInStream (fun _ => rfl)
      (fun t => SendsOnly_cons_other _ _ _ (fun _ _ h => by simp at h) (SendsOnly_nil _))
      ((userRunTimes (s.outCallListeners.count c.id) userOnOutStream s).1.inCallListeners.count
        c.id)
      (userRunTimes (s.outCallListeners.count c.id) userOnOutStream s).1
    rw [userRunTimes_peerId _ (fun _ => rfl)] at this
    exact this
  | callClose c =>
    exact SendsOnly_userRunTimes _ (fun _ => rfl) (SendsOnly_userOnCallOver _) _ s
  | callError c =>
    simp only [userStep]
    refine SendsOnly_append _ _ _
      (SendsOnly_userRunTimes _ (fun _ => rfl) (SendsOnly_userOnCallOver _) _ s) ?_
    have := SendsOnly_userRunTimes (userOnCallOver "Call error occurred") (fun _ => rfl)
      (SendsOnly_userOnCallOver _)
      ((userRunTimes (s.outCallListeners.count c.id) (userOnCallOver "Call failed")
        s).1.inCallListeners.count c.id)
      (userRunTimes (s.outCallListeners.count c.id) (userOnCallOver "Call failed") s).1
    rw [userRunTimes_peerId _ (fun _ => rfl)] at this
    exact this
  | peerDisconnected => exact SendsOnly_nil _

/-- C8: every message that the owner controller or the user controller sends,
in any state and for any event, has a type of the vocabulary; an
`owner-status` carries the status `available` or `busy`, a `user-connected`
carries the peer id of the sending user as `userId`, and a `ping` carries a
timestamp. -/
theorem c8_message_vocabulary :
    (∀ (s : OwnerState) (ev : OwnerEvent), ∀ m ∈ sentMessages (ownerStep s ev).2,
      inVocabulary m) ∧
    (∀ (s : UserState) (ev : UserEvent), ∀ m ∈ sentMessages (userStep s ev).2,
      inVocabulary m ∧ (m.type = "user-connected" → m.userId = some s.peerId)) := by
  constructor
  · intro s ev m hm
    obtain ⟨conn, h⟩ := (mem_sentMessages m _).1 hm
    exact SendsOnly_ownerStep s ev conn m h
  · intro s ev m hm
    obtain ⟨conn, h⟩ := (mem_sentMessages m _).1 hm
    exact SendsOnly_userStep s ev conn m h


/-- C8 on the status message the owner sends to a user who connects. -/
theorem c8_message_vocabulary_witness :
    msgOwnerStatus "available" ∈ sentMessages
      (ownerStep OwnerState.initial
        (OwnerEvent.connection { id := 1, peer := "bob", isOpen := true })).2 ∧
    inVocabulary (msgOwnerStatus "available") :=
  ⟨by decide,
   c8_message_vocabulary.1 OwnerState.initial
     (OwnerEvent.connection { id := 1, peer := "bob", isOpen := true })
     (msgOwnerStatus "available") (by decide)⟩

/-! ## C9 -/

/-- C9 fails on the code: the owner id is not the same in every run.  With
`Math.random()` returning 0.5 in one run (rendered `0.i` in base 36) and 0.25
in another (rendered `0.9`), `init` registers `owner-i` in the first and
`owner-9` in the second. -/
theorem c9_owner_id_depends_on_random :
    initOwnerId "0.i" = "owner-i" ∧ initOwnerId "0.9" = "owner-9" ∧
    initOwnerId "0.i" ≠ initOwnerId "0.9" := by
  decide

/-! ## C10 -/

/-- C10 fails on the code: after `bob` connects twice and the first connection
closes, `bob` still has a connection that was opened and has not closed, but
`bob` is no key of `dataConnections` and the displayed user count is 0. -/
theorem c10_stale_close_drops_peer :
    (liveConnections staleCloseRun).map (fun c => c.peer) = ["bob"] ∧
    mapHas (ownerRun OwnerState.initial staleCloseRun).dataConnections "bob" = false ∧
    (ownerRun OwnerState.initial staleCloseRun).userCount = some 0 := by
  decide


/-! ## C11 -/

theorem mapGet_mapDelete_self {V : Type} (m : List (PeerId × V)) (k : PeerId) :
    mapGet (mapDelete m k) k = none := by
  induction m with
  | nil => rfl
  | cons e rest ih =>
    by_cases h : e.1 = k
    · simpa [mapDelete, List.filter_cons, h] using ih
    · simp only [mapDelete, List.filter_cons, ne_eq, h, not_false_eq_true, decide_True, if_true,
        mapGet, if_false]
      exact ih

theorem mapGet_mapDelete_ne {V : Type} (m : List (PeerId × V)) (k x : PeerId) (hx : x ≠ k) :
    mapGet (mapDelete m k) x = mapGet m x := by
  induction m with
  | nil => rfl
  | cons e rest ih =>
    by_cases h : e.1 = k
    · have hex : e.1 ≠ x := fun hc => hx (hc ▸ h)
      have h1 : mapDelete (e :: rest) k = mapDelete rest k := by
        simp [mapDelete, List.filter_cons, h]
      have h2 : mapGet (e :: rest) x = mapGet rest x := by
        simp [mapGet, hex]
      rw [h1, h2]
      exact ih
    · simp only [mapDelete, List.filter_cons, ne_eq, h, not_false_eq_true, decide_True, if_true,
        mapGet]
      by_cases hex : e.1 = x
      · simp [hex]
      · simp only [hex, if_false]
        exact ih

theorem onClose_state_ended (c : DataConnection) (s : OwnerState)
    (h : s.currentCaller = some c.peer ∧ s.isInCall = true) :
    onClose c s
      = endCall { s with dataConnections := mapDelete s.dataConnections c.peer,
                         mediaConnections := mapDelete s.mediaConnections c.peer,
                         userCount := some (mapSize (mapDelete s.dataConnections c.peer)) } := by
  simp [onClose, updateUserCount, h.1, h.2]

theorem onClose_state_kept (c : DataConnection) (s : OwnerState)
    (h : ¬ (s.currentCaller = some c.peer ∧ s.isInCall = true)) :
    onClose c s
      = ({ s with dataConnections := mapDelete s.dataConnections c.peer,
                  mediaConnections := mapDelete s.mediaConnections c.peer,
                  userCount := some (mapSize (mapDelete s.dataConnections c.peer)) }, []) := by
  simp only [onClose, updateUserCount]
  rw [if_neg h]

/-- C11: when the data connection of peer `p` closes, the callback leaves no
entry for `p` in `dataConnections` and none in `mediaConnections`; `endCall`
runs (it shows `Call ended`) if and only if `p` was the current caller and
`isInCall` was true, and then `isInCall` is false and `currentCaller` null; in
every other case `isInCall` and `currentCaller` keep their values and the
callback does nothing to the outside. -/
theorem c11_connection_close (s : OwnerState) (connection : DataConnection) :
    mapHas (onClose connection s).1.dataConnections connection.peer = false ∧
    mapHas (onClose connection s).1.mediaConnections connection.peer = false ∧
    (Effect.showNotification "Call ended" "info" ∈ (onClose connection s).2 ↔
      (s.currentCaller = some connection.peer ∧ s.isInCall = true)) ∧
    ((s.currentCaller = some connection.peer ∧ s.isInCall = true) →
      (onClose connection s).1.isInCall = false ∧
      (onClose connection s).1.currentCaller = none ∧
      (onClose connection s).1.mediaConnections = []) ∧
    (¬ (s.currentCaller = some connection.peer ∧ s.isInCall = true) →
      (onClose connection s).1.isInCall = s.isInCall ∧
      (onClose connection s).1.currentCaller = s.currentCaller ∧
      (onClose connection s).2 = []) := by
  by_cases h : s.currentCaller = some connection.peer ∧ s.isInCall = true
  · rw [onClose_state_ended connection s h]
    refine ⟨?_, ?_, ?_, ?_, ?_⟩
    · simp [endCall_state, mapHas, mapGet_mapDelete_self]
    · simp [endCall_state, mapHas, mapGet]
    · rw [endCall_effects]
      simp [h]
    · intro _
      exact ⟨rfl, rfl, rfl⟩
    · intro hn
      exact absurd h hn
  · rw [onClose_state_kept connection s h]
    refine ⟨?_, ?_, ?_, ?_, ?_⟩
    · simp [mapHas, mapGet_mapDelete_self]
    · simp [mapHas, mapGet_mapDelete_self]
    · simp [h]
    · intro hp
      exact absurd hp h
    · intro _
      exact ⟨rfl, rfl, rfl⟩

/-! ## C12 -/

/-- C12 fails on the code: with a current caller, a local stream and a stored
call (the offer of `alice`), when `call.answer` throws, `acceptCall` ends with
the uncaught `TypeError` of the undefined `this.endNotification()` and the
notification `Failed to accept call` is not shown. -/
theorem c12_failed_accept_shows_no_toast :
    offeredByAlice.currentCaller = some "alice" ∧
    offeredByAlice.localStream = true ∧
    mapGet offeredByAlice.mediaConnections "alice" = some { id := 1, peer := "alice" } ∧
    (acceptCall true offeredByAlice).2
      = [Effect.uncaught "TypeError: this.endNotification is not a function"] ∧
    Effect.showNotification "Failed to accept call" "error" ∉ (acceptCall true offeredByAlice).2 := by
  decide


/-! ## C13 -/

theorem busyHasCall_of_not_inCall (s : OwnerState) (h : s.isInCall = false) :
    busyHasCall s = true := by
  simp [busyHasCall, h]

theorem busyHasCall_of_hasCurrentCall (s : OwnerState) (h : hasCurrentCall s = true) :
    busyHasCall s = true := by
  simp [busyHasCall, h]

theorem onData_busyHasCall (c : DataConnection) (d : Message) (s : OwnerState)
    (h : busyHasCall s = true ∧ (d.type = "call-started" → hasCurrentCall s = true)) :
    busyHasCall (onData c d s).1 = true ∧
    (d.type = "call-started" → hasCurrentCall (onData c d s).1 = true) := by
  by_cases h1 : d.type = "call-started"
  · have hs : hasCurrentCall (onData c d s).1 = true := by
      have := h.2 h1
      simpa [onData, h1, broadcastToAllUsers, hasCurrentCall] using this
    exact ⟨busyHasCall_of_hasCurrentCall _ hs, fun _ => hs⟩
  · refine ⟨?_, fun hc => absurd hc h1⟩
    by_cases h2 : d.type = "call-ended"
    · simp only [onData, h1, h2, if_false, if_true]
      exact busyHasCall_of_not_inCall _ rfl
    · simp only [onData, h1, h2, if_false]
      exact h.1

theorem onClose_busyHasCall (c : DataConnection) (s : OwnerState)
    (h : busyHasCall s = true) : busyHasCall (onClose c s).1 = true := by
  by_cases hc : s.currentCaller = some c.peer ∧ s.isInCall = true
  · rw [onClose_state_ended c s hc]
    exact busyHasCall_of_not_inCall _ rfl
  · rw [onClose_state_kept c s hc]
    by_cases hin : s.isInCall = true
    · have hcur : hasCurrentCall s = true := by
        simpa [busyHasCall, hin] using h
      apply busyHasCall_of_hasCurrentCall
      by_cases hp : s.currentCaller = some c.peer
      · exact absurd ⟨hp, hin⟩ hc
      · unfold hasCurrentCall at hcur ⊢
        simp only
        generalize s.currentCaller = cur at hcur hp
        cases cur with
        | none => simp [mapGetOpt] at hcur
        | some p =>
          have hne : p ≠ c.peer := fun heq => hp (by rw [heq])
          simp only [mapGetOpt] at hcur ⊢
          rw [mapGet_mapDelete_ne _ _ _ hne]
          exact hcur
    · exact busyHasCall_of_not_inCall _ (by simpa using hin)

theorem acceptCall_busyHasCall (t : Bool) (s : OwnerState)
    (h : busyHasCall s = true) : busyHasCall (acceptCall t s).1 = true := by
  unfold acceptCall
  split
  · exact h
  · split
    · exact h
    · split
      · exact h
      · exact h

theorem onCall_busyHasCall (c : MediaConnection) (s : OwnerState)
    (h : busyHasCall s = true) : busyHasCall (onCall c s).1 = true := by
  cases hin : s.isInCall with
  | true =>
    have : (onCall c s).1 = s := by simp [onCall, hin]
    rw [this]
    exact h
  | false =>
    apply busyHasCall_of_not_inCall
    simp [onCall, hin]

theorem rejectCall_isInCall (s : OwnerState) :
    (rejectCall s).1.isInCall = s.isInCall := by
  unfold rejectCall
  split
  · cases s.currentCaller <;> rfl
  · rfl

/-- A step keeps "`isInCall` implies a stored call of the current caller" when
the busy signals arrive while that call is stored and the reject button is not
used during a call. -/
theorem ownerStep_busyHasCall (s : OwnerState) (ev : OwnerEvent)
    (hs : busyHasCall s = true)
    (hg : (match ev with
            | OwnerEvent.data _ d => decide (d.type ≠ "call-started") || hasCurrentCall s
            | OwnerEvent.callStream _ => hasCurrentCall s
            | OwnerEvent.rejectCall => !s.isInCall
            | _ => true) = true) :
    busyHasCall (ownerStep s ev).1 = true := by
  cases ev with
  | microphoneReady => exact hs
  | connection c => exact hs
  | call c => exact onCall_busyHasCall c s hs
  | data c d =>
    have hg2 : d.type = "call-started" → hasCurrentCall s = true := by
      intro hd
      simpa [hd] using hg
    exact (runTimes_preserves
      (fun t => busyHasCall t = true ∧ (d.type = "call-started" → hasCurrentCall t = true))
      (onData c d) (onData_busyHasCall c d) _ s ⟨hs, hg2⟩).1
  | close c =>
    exact runTimes_preserves (fun t => busyHasCall t = true) (onClose c)
      (onClose_busyHasCall c) _ s hs
  | openChanged i v => exact hs
  | acceptCall t => exact acceptCall_busyHasCall t s hs
  | rejectCall =>
    apply busyHasCall_of_not_inCall
    simp only [ownerStep]
    rw [rejectCall_isInCall]
    simpa using hg
  | endCall => exact busyHasCall_of_not_inCall _ rfl
  | callStream c =>
    have hcur : hasCurrentCall s = true := hg
    exact busyHasCall_of_hasCurrentCall _
      (runTimes_preserves (fun t => hasCurrentCall t = true) onCallStream
        (fun t ht => by simpa [onCallStream, hasCurrentCall] using ht) _ s hcur)
  | callClose c =>
    exact runTimes_preserves (fun t => busyHasCall t = true) onCallClose
      (fun t _ => busyHasCall_of_not_inCall _ rfl) _ s hs
  | callError c =>
    exact runTimes_preserves (fun t => busyHasCall t = true) onCallError
      (fun t _ => busyHasCall_of_not_inCall _ rfl) _ s hs
  | pingTimer d n =>
    simp only [ownerStep, onPingTimer_state]
    exact hs

theorem ownerRun_busyHasCall (evs : List OwnerEvent) (s : OwnerState)
    (hs : busyHasCall s = true) (hg : busySignalsWithCall s evs = true) :
    busyHasCall (ownerRun s evs) = true := by
  induction evs generalizing s with
  | nil => exact hs
  | cons ev rest ih =>
    rw [ownerRun_cons]
    simp only [busySignalsWithCall, Bool.and_eq_true] at hg
    exact ih _ (ownerStep_busyHasCall s ev hs hg.1) hg.2

/-- C13, as stated, fails: after `bob` connects and a `call-started` message
arrives on his data connection, `isInCall` is true while `currentCaller` is
null and `mediaConnections` is empty. -/
theorem c13_busy_without_call :
    OwnerReachable (ownerRun OwnerState.initial
      [OwnerEvent.connection { id := 1, peer := "bob", isOpen := true },
       OwnerEvent.data { id := 1, peer := "bob", isOpen := true } msgCallStarted]) ∧
    (ownerRun OwnerState.initial
      [OwnerEvent.connection { id := 1, peer := "bob", isOpen := true },
       OwnerEvent.data { id := 1, peer := "bob", isOpen := true } msgCallStarted]).isInCall
      = true ∧
    (ownerRun OwnerState.initial
      [OwnerEvent.connection { id := 1, peer := "bob", isOpen := true },
       OwnerEvent.data { id := 1, peer := "bob", isOpen := true } msgCallStarted]).currentCaller
      = none ∧
    (ownerRun OwnerState.initial
      [OwnerEvent.connection { id := 1, peer := "bob", isOpen := true },
       OwnerEvent.data { id := 1, peer := "bob", isOpen := true }
         msgCallStarted]).mediaConnections = [] :=
  ⟨⟨_, rfl⟩, by decide, by decide, by decide⟩

/-- C13, amended: in every state reached by a run in which each `call-started`
message and each stream callback arrives while `currentCaller` has a stored
call, and the reject button is not used while `isInCall` is true,
`isInCall = true` implies that `currentCaller` is non-null and that
`mediaConnections` holds a call for `currentCaller`. -/
theorem c13_busy_has_call (evs : List OwnerEvent)
    (hg : busySignalsWithCall OwnerState.initial evs = true) :
    (ownerRun OwnerState.initial evs).isInCall = true →
      ∃ p call, (ownerRun OwnerState.initial evs).currentCaller = some p ∧
        mapGet (ownerRun OwnerState.initial evs).mediaConnections p = some call := by
  intro hin
  have h := ownerRun_busyHasCall evs OwnerState.initial (by decide) hg
  simp only [busyHasCall, hin, Bool.not_true, Bool.false_or, hasCurrentCall] at h
  cases hp : (ownerRun OwnerState.initial evs).currentCaller with
  | none => simp [hp, mapGetOpt] at h
  | some p =>
    rw [hp] at h
    simp only [mapGetOpt] at h
    obtain ⟨call, hcall⟩ := Option.isSome_iff_exists.1 h
    exact ⟨p, call, rfl, hcall⟩

/-- C13, amended, on the run that brings the owner into a call with `alice`. -/
theorem c13_busy_has_call_witness :
    busySignalsWithCall OwnerState.initial
      [OwnerEvent.microphoneReady,
       OwnerEvent.connection { id := 1, peer := "alice", isOpen := true },
       OwnerEvent.call { id := 1, peer := "alice" },
       OwnerEvent.acceptCall false,
       OwnerEvent.callStream { id := 1, peer := "alice" },
       OwnerEvent.data { id := 1, peer := "alice", isOpen := true } msgCallStarted] = true ∧
    (ownerRun OwnerState.initial
      [OwnerEvent.microphoneReady,
       OwnerEvent.connection { id := 1, peer := "alice", isOpen := true },
       OwnerEvent.call { id := 1, peer := "alice" },
       OwnerEvent.acceptCall false,
       OwnerEvent.callStream { id := 1, peer := "alice" },
       OwnerEvent.data { id := 1, peer := "alice", isOpen := true } msgCallStarted]).isInCall
      = true ∧
    ∃ p call,
      (ownerRun OwnerState.initial
        [OwnerEvent.microphoneReady,
         OwnerEvent.connection { id := 1, peer := "alice", isOpen := true },
         OwnerEvent.call { id := 1, peer := "alice" },
         OwnerEvent.acceptCall false,
         OwnerEvent.callStream { id := 1, peer := "alice" },
         OwnerEvent.data { id := 1, peer := "alice", isOpen := true }
           msgCallStarted]).currentCaller = some p ∧
      mapGet (ownerRun OwnerState.initial
        [OwnerEvent.microphoneReady,
         OwnerEvent.connection { id := 1, peer := "alice", isOpen := true },
         OwnerEvent.call { id := 1, peer := "alice" },
         OwnerEvent.acceptCall false,
         OwnerEvent.callStream { id := 1, peer := "alice" },
         OwnerEvent.data { id := 1, peer := "alice", isOpen := true }
           msgCallStarted]).mediaConnections p = some call :=
  ⟨by decide, by decide, c13_busy_has_call _ (by decide) (by decide)⟩


/-! ## C14 -/

/-- C14 fails on the code: with the owner in a call with `alice`
(`currentCaller = alice`, `isInCall` true) and `bob` connected, a `call-ended`
message on the data connection of `bob` runs `endCall`: the call of `alice` is
closed, `mediaConnections` is emptied, `isInCall` becomes false and
`currentCaller` null. -/
theorem c14_other_user_ends_call :
    inCallWithAlice.currentCaller = some "alice" ∧
    inCallWithAlice.isInCall = true ∧
    inCallWithAlice.mediaConnections = [("alice", { id := 1, peer := "alice" })] ∧
    mapGet inCallWithAlice.dataConnections "bob" = some { id := 2, peer := "bob", isOpen := true } ∧
    (ownerStep inCallWithAlice
      (OwnerEvent.data { id := 2, peer := "bob", isOpen := true } msgCallEnded)).1.isInCall
      = false ∧
    (ownerStep inCallWithAlice
      (OwnerEvent.data { id := 2, peer := "bob", isOpen := true } msgCallEnded)).1.currentCaller
      = none ∧
    (ownerStep inCallWithAlice
      (OwnerEvent.data { id := 2, peer := "bob", isOpen := true }
        msgCallEnded)).1.mediaConnections = [] ∧
    closedCalls (ownerStep inCallWithAlice
      (OwnerEvent.data { id := 2, peer := "bob", isOpen := true } msgCallEnded)).2
      = [{ id := 1, peer := "alice" }] := by
  decide

/-! ## C15 -/

theorem userRun_cons (s : UserState) (ev : UserEvent) (evs : List UserEvent) :
    userRun s (ev :: evs) = userRun (userStep s ev).1 evs := rfl

theorem userRunTimes_preserves (P : UserState → Prop) (h : UserHandler)
    (hP : ∀ s, P s → P (h s).1) (n : Nat) (s : UserState) (hs : P s) :
    P (userRunTimes n h s).1 := by
  induction n generalizing s with
  | zero => exact hs
  | succ k ih =>
    simp only [userRunTimes]
    exact ih (h s).1 (hP s hs)

theorem userRunTimes_establishes (P : UserState → Prop) (h : UserHandler)
    (hP : ∀ s, P (h s).1) (n : Nat) (hn : 0 < n) (s : UserState) :
    P (userRunTimes n h s).1 := by
  cases n with
  | zero => exact absurd hn (Nat.lt_irrefl 0)
  | succ k =>
    simp only [userRunTimes]
    exact userRunTimes_preserves P h (fun t _ => hP t) k (h s).1 (hP s)

theorem userOnData_busy (d : Message) (s : UserState)
    (htype : d.type = "owner-status") (hstatus : d.status = some "busy") :
    (userOnData d s).1.callBtnDisabled = true ∧
    (userOnData d s).1.statusText ≠ "Owner Available" := by
  simp [userOnData, htype, hstatus]

theorem userOnData_quiet (d : Message) (s : UserState)
    (h : d.type ≠ "owner-status" ∧ d.type ≠ "call-rejected" ∧ d.type ≠ "call-ended") :
    (userOnData d s).1 = s := by
  simp [userOnData, h.1, h.2.1, h.2.2]

theorem userSetOpen_shown (i : Nat) (v : Bool) (s : UserState) :
    (userSetOpen i v s).1.callBtnDisabled = s.callBtnDisabled ∧
    (userSetOpen i v s).1.statusText = s.statusText := by
  unfold userSetOpen
  cases s.conn with
  | none => exact ⟨rfl, rfl⟩
  | some c =>
    simp only
    split <;> exact ⟨rfl, rfl⟩

theorem connectToOwner_shown (i : String) (n : Option DataConnection) (s : UserState) :
    (connectToOwner i n s).1.callBtnDisabled = s.callBtnDisabled ∧
    (connectToOwner i n s).1.statusText = s.statusText := by
  unfold connectToOwner
  split
  · exact ⟨rfl, rfl⟩
  · cases n <;> exact ⟨rfl, rfl⟩

/-- A quiet event keeps the call button disabled and the status text different
from `Owner Available`. -/
theorem userStep_quiet (s : UserState) (ev : UserEvent) (hq : quietEvent ev = true)
    (hs : s.callBtnDisabled = true ∧ s.statusText ≠ "Owner Available") :
    (userStep s ev).1.callBtnDisabled = true ∧
    (userStep s ev).1.statusText ≠ "Owner Available" := by
  cases ev with
  | microphoneReady => exact hs
  | connection c => exact hs
  | call c t =>
    simp only [userStep, userOnCall]
    split <;> exact hs
  | connectClick i n =>
    have := connectToOwner_shown i n s
    simp only [userStep]
    rw [this.1, this.2]
    exact hs
  | reconnectTimer i n =>
    simp only [userStep, reconnectToOwner]
    split
    · have := connectToOwner_shown i n s
      simp only
      rw [this.1, this.2]
      exact hs
    · exact hs
  | callBtnClick n => simp [quietEvent] at hq
  | connOpen c =>
    simp only [userStep]
    refine userRunTimes_preserves
      (fun t => t.callBtnDisabled = true ∧ t.statusText ≠ "Owner Available")
      (userOnOpen c) (fun t ht => ht) _ _ ?_
    have := userSetOpen_shown c.id true s
    show (userSetOpen c.id true s).1.callBtnDisabled = true ∧
      (userSetOpen c.id true s).1.statusText ≠ "Owner Available"
    rw [this.1, this.2]
    exact hs
  | data c d =>
    have hd : d.type ≠ "owner-status" ∧ d.type ≠ "call-rejected" ∧ d.type ≠ "call-ended" := by
      simpa [quietEvent] using hq
    exact userRunTimes_preserves
      (fun t => t.callBtnDisabled = true ∧ t.statusText ≠ "Owner Available")
      (userOnData d) (fun t ht => by rw [userOnData_quiet d t hd]; exact ht) _ s hs
  | connClose c =>
    simp only [userStep]
    refine userRunTimes_preserves
      (fun t => t.callBtnDisabled = true ∧ t.statusText ≠ "Owner Available")
      userOnClose (fun t _ => ⟨rfl, by simp [userOnClose]⟩) _ _ ?_
    have := userSetOpen_shown c.id false s
    show (userSetOpen c.id false s).1.callBtnDisabled = true ∧
      (userSetOpen c.id false s).1.statusText ≠ "Owner Available"
    rw [this.1, this.2]
    exact hs
  | callStream c => simp [quietEvent] at hq
  | callClose c => simp [quietEvent] at hq
  | callError c => simp [quietEvent] at hq
  | peerDisconnected => exact ⟨hs.1, by simp [userStep]⟩

theorem userRun_quiet (evs : List UserEvent) (s : UserState)
    (hq : evs.all quietEvent = true)
    (hs : s.callBtnDisabled = true ∧ s.statusText ≠ "Owner Available") :
    (userRun s evs).callBtnDisabled = true ∧ (userRun s evs).statusText ≠ "Owner Available" := by
  induction evs generalizing s with
  | nil => exact hs
  | cons ev rest ih =>
    rw [userRun_cons]
    simp only [List.all_cons, Bool.and_eq_true] at hq
    exact ih _ hq.2 (userStep_quiet s ev hq.1 hs)

/-- C15, as stated, fails: a user who holds no call and whose most recent
`owner-status` message said `busy` receives `call-rejected`; `endCall()`
enables the call button and writes `Owner Available`. -/
theorem c15_endCall_resets_busy :
    lastOwnerStatus busyThenRejectedRun = some "busy" ∧
    (userRun (UserState.initial "user-abc" true "📞 Call Owner" "") busyThenRejectedRun).call
      = none ∧
    (userRun (UserState.initial "user-abc" true "📞 Call Owner" "")
      busyThenRejectedRun).callBtnDisabled = false ∧
    (userRun (UserState.initial "user-abc" true "📞 Call Owner" "")
      busyThenRejectedRun).statusText = "Owner Available" := by
  decide

/-- C15, amended: in every state of the user controller, once an
`owner-status` message with status `busy` has been handled, the call button is
disabled and the status text is not `Owner Available` for as long as only
quiet events follow: no further `owner-status`, `call-rejected` or
`call-ended` message, no call stream, close or error event and no click on the
call button. -/
theorem c15_busy_shown_while_quiet (s : UserState) (c : DataConnection) (d : Message)
    (post : List UserEvent)
    (htype : d.type = "owner-status") (hstatus : d.status = some "busy")
    (hreg : 0 < s.connListeners.count c.id)
    (hquiet : post.all quietEvent = true) :
    (userRun s (UserEvent.data c d :: post)).callBtnDisabled = true ∧
    (userRun s (UserEvent.data c d :: post)).statusText ≠ "Owner Available" := by
  rw [userRun_cons]
  apply userRun_quiet post _ hquiet
  exact userRunTimes_establishes
    (fun t => t.callBtnDisabled = true ∧ t.statusText ≠ "Owner Available")
    (userOnData d) (fun t => userOnData_busy d t htype hstatus) _ hreg s


/-- C15, amended, on a user who is told that the owner is busy and then loses
the data connection. -/
theorem c15_busy_shown_while_quiet_witness :
    (msgOwnerStatus "busy").type = "owner-status" ∧
    (msgOwnerStatus "busy").status = some "busy" ∧
    0 < (userRun (UserState.initial "user-abc" false "📞 Call Owner" "")
          [UserEvent.connectClick "owner-i" (some { id := 1, peer := "owner-i", isOpen := false }),
           UserEvent.connOpen { id := 1, peer := "owner-i", isOpen := true }]).connListeners.count
          1 ∧
    [UserEvent.microphoneReady,
     UserEvent.connClose { id := 1, peer := "owner-i", isOpen := false }].all quietEvent = true ∧
    (userRun (UserState.initial "user-abc" false "📞 Call Owner" "")
      busyThenClosedRun).callBtnDisabled = true ∧
    (userRun (UserState.initial "user-abc" false "📞 Call Owner" "")
      busyThenClosedRun).statusText ≠ "Owner Available" :=
  ⟨by decide, by decide, by decide, by decide,
   c15_busy_shown_while_quiet
     (userRun (UserState.initial "user-abc" false "📞 Call Owner" "")
       [UserEvent.connectClick "owner-i" (some { id := 1, peer := "owner-i", isOpen := false }),
        UserEvent.connOpen { id := 1, peer := "owner-i", isOpen := true }])
     { id := 1, peer := "owner-i", isOpen := true } (msgOwnerStatus "busy")
     [UserEvent.microphoneReady,
      UserEvent.connClose { id := 1, peer := "owner-i", isOpen := false }]
     (by decide) (by decide) (by decide) (by decide)⟩

end Calling
